import Mathlib

/-!
Shallow embedding of the nonogram solver core (src/src/lib.rs).

The source is a Rust/WASM library with three layers: a line enumerator
(`generate_possibilities` with inner recursive `recurse`), a line solver
(`solve_line`), and a grid propagator (`solve_puzzle`), plus a manual serde
decoder for `CellState` (visit_u64 / visit_i64 / visit_f64).

Modelling conventions:
* Rust `usize`/`u64` values are `Nat`; `i64` is `Int` with the Rust
  `as u64` cast made explicit (reduction mod 2^64).
* Finite `f64` values are modelled as rationals; `f64::round` (round half
  away from zero) and the saturating `as u64` cast are explicit functions.
* A Rust panic (underflowing `usize` subtraction, out-of-bounds index) is
  modelled as `Option.none`; fallible returns (`Result<_, String>`) are
  `Except String _` inside the `Option`.
* The recursion of `recurse` is driven by a fuel argument that counts the
  remaining rule blocks plus one; `generate_possibilities` passes
  `rule.length + 1`, which is exactly the recursion depth of the source.
-/

namespace NonogramSolver

/-- Tri-state cell value, `CellState` in the source (`Empty = 0`,
`Filled = 1`, `Crossed = 2`). -/
inductive CellState where
  | Empty
  | Filled
  | Crossed
deriving DecidableEq, Repr

/-- Numeric code of a cell state, as used by `Serialize` (`*self as u8`). -/
def CellState.code : CellState → Nat
  | .Empty => 0
  | .Filled => 1
  | .Crossed => 2

/-! ## Boundary decode (Deserialize for CellState) -/

/-- `visit_u64` of the source: 0/1/2 decode to the three states, anything
else is a malformed-input error. -/
def visit_u64 (value : Nat) : Except String CellState :=
  match value with
  | 0 => .ok .Empty
  | 1 => .ok .Filled
  | 2 => .ok .Crossed
  | _ => .error s!"invalid cell state: {value}"

/-- The Rust `value as u64` cast of an `i64`: reduction modulo `2 ^ 64`
(the bit pattern reinterpreted as unsigned). -/
def i64AsU64 (v : Int) : Nat := (v % (2 : Int) ^ 64).toNat

/-- `visit_i64` of the source: casts to u64 and reuses `visit_u64`. -/
def visit_i64 (v : Int) : Except String CellState :=
  visit_u64 (i64AsU64 v)

/-- `f64::round`: nearest integer, ties away from zero.  Finite doubles are
rationals, and on every finite double this agrees with the source. -/
def roundHalfAway (q : ℚ) : Int :=
  if q < 0 then -⌊-q + 1 / 2⌋ else ⌊q + 1 / 2⌋

/-- The Rust float-to-integer `as u64` cast: saturating (negatives collapse
to 0, values above `u64::MAX` collapse to `u64::MAX`). -/
def f64AsU64 (i : Int) : Nat :=
  if i < 0 then 0 else min i.toNat (2 ^ 64 - 1)

/-- `visit_f64` of the source: `self.visit_u64(value.round() as u64)`. -/
def visit_f64 (q : ℚ) : Except String CellState :=
  visit_u64 (f64AsU64 (roundHalfAway q))

/-! ## Line enumerator (`generate_possibilities` and inner `recurse`) -/

/-- Marking the cells of one block: `for j in 0..block_length
{ current_arrangement[i + j] = 1; }`.  All writes performed by the source
are in bounds whenever the latest-start subtraction did not underflow, so
`List.set` (which ignores out-of-range indices) is faithful. -/
def placeBlock (buf : List Nat) (i L : Nat) : List Nat :=
  (List.range L).foldl (fun b j => b.set (i + j) 1) buf

/-- Sequencing of the `for i in start_index..=latest_start` loop: run the
body on each start index in order, concatenating the recorded solutions,
and propagate a panic (`none`) from any iteration. -/
def collectStarts (f : Nat → Option (List (List Nat))) :
    List Nat → Option (List (List Nat))
  | [] => some []
  | i :: is =>
    match f i with
    | none => none
    | some l =>
      match collectStarts f is with
      | none => none
      | some ls => some (l ++ ls)

/-- The inner `recurse` of `generate_possibilities`, in functional form.
The rule is consumed as the suffix `rule[block_index..]`; the fuel argument
decreases once per block (callers pass `suffix length + 1`, so fuel never
runs out).  `space_for_remaining` is `rest.sum + rest.length`, which equals
the source's branch on `block_index + 1 < rule.len()` in both of its cases.
The unguarded `size - space_for_remaining - block_length` of the source
underflows exactly when `size < space + L`; that is a Rust panic (debug) or
wraparound followed by out-of-bounds indexing (release), modelled as
`none`. -/
def recurse (size : Nat) : Nat → List Nat → Nat → List Nat →
    Option (List (List Nat))
  | 0, _, _, _ => none
  | _ + 1, [], _, buf => some [buf]
  | fuel + 1, L :: rest, start, buf =>
    let space := rest.sum + rest.length
    if size < space + L then none
    else
      let latest := size - space - L
      collectStarts
        (fun i => recurse size fuel rest (i + L + 1) (placeBlock buf i L))
        (List.range' start (latest + 1 - start))

/-- `generate_possibilities` of the source: empty rule or `[0]` yields the
single all-zero arrangement, otherwise the backtracking enumeration runs
from block 0, start 0, on an all-zero buffer. -/
def generate_possibilities (size : Nat) (rule : List Nat) :
    Option (List (List Nat)) :=
  if rule = [] ∨ rule = [0] then some [List.replicate size 0]
  else recurse size (rule.length + 1) rule 0 (List.replicate size 0)

/-- Required space of a clue: sum of block lengths plus one mandatory
separator between consecutive blocks. -/
def requiredSpace (rule : List Nat) : Nat := rule.sum + rule.length - 1

/-! ## Run-length view of an arrangement (spec side, for C4) -/

/-- Helper for `oneRuns`: `cur` is the length of the current (possibly
empty) run of 1s. -/
def runsAux : Nat → List Nat → List Nat
  | cur, [] => if cur = 0 then [] else [cur]
  | cur, x :: t =>
    if x = 1 then runsAux (cur + 1) t
    else if cur = 0 then runsAux 0 t else cur :: runsAux 0 t

/-- Modelled from the spec: the lengths of the maximal runs of 1s of a
binary sequence, in order. -/
def oneRuns (s : List Nat) : List Nat := runsAux 0 s

/-- A sequence all of whose entries are 0 or 1. -/
def isBinary (s : List Nat) : Prop := ∀ x ∈ s, x = 0 ∨ x = 1

instance (s : List Nat) : Decidable (isBinary s) := by
  unfold isBinary; infer_instance

/-! ## Line solver (`solve_line`) -/

/-- The single error message produced by `solve_line`. -/
def contraMsg : String := "入力に矛盾があります"

/-- The zero-rule fast path of `solve_line`: walk `i` over
`0..line_size`, erroring on an already-Filled cell of `user_line` and
otherwise setting the cell of the result to Crossed.  An out-of-range read
of `user_line` is the source's panic, modelled as `none`. -/
def crossOutLoop (user : List CellState) : Nat → Nat → List CellState →
    Option (Except String (List CellState))
  | _, 0, acc => some (.ok acc)
  | i, n + 1, acc =>
    match user[i]? with
    | none => none
    | some v =>
      if v = .Filled then some (.error contraMsg)
      else crossOutLoop user (i + 1) n (acc.set i .Crossed)

/-- One cell of the filter closure of `solve_line`: Filled requires 1,
Crossed requires 0, Empty imposes nothing. -/
def cellFits (v : CellState) (b : Nat) : Bool :=
  match v with
  | .Filled => b == 1
  | .Crossed => b == 0
  | .Empty => true

/-- The `(0..line_size).all(...)` test of the filter closure; a read past
the end of `user_line` is the source's panic (`none`).  Arrangement cells
are read with default 9, which never occurs: every arrangement produced by
the enumerator has length `line_size`. -/
def compatLoop (user : List CellState) (p : List Nat) : Nat → Nat → Option Bool
  | _, 0 => some true
  | i, n + 1 =>
    match user[i]? with
    | none => none
    | some v =>
      if cellFits v (p.getD i 9) then compatLoop user p (i + 1) n
      else some false

/-- The `.filter(...).collect()` over the generated possibilities,
propagating a panic from the closure. -/
def filterCompat (lineSize : Nat) (user : List CellState) :
    List (List Nat) → Option (List (List Nat))
  | [] => some []
  | p :: ps =>
    match compatLoop user p 0 lineSize with
    | none => none
    | some true => (filterCompat lineSize user ps).map (p :: ·)
    | some false => filterCompat lineSize user ps

/-- Step 3 of `solve_line`: for every still-Empty cell, if all surviving
arrangements agree there, fix the cell to Filled (all 1) or Crossed
(all 0). `acc` starts as a copy of `user_line` and position `i` is
untouched when the loop reaches it, exactly as in the source. -/
def intersectLoop (valid : List (List Nat)) : Nat → Nat → List CellState →
    Option (List CellState)
  | _, 0, acc => some acc
  | i, n + 1, acc =>
    match acc[i]? with
    | none => none
    | some v =>
      if v ≠ .Empty then intersectLoop valid (i + 1) n acc
      else
        let first := (valid.headD []).getD i 9
        if valid.all (fun p => p.getD i 9 == first) then
          intersectLoop valid (i + 1) n
            (acc.set i (if first = 1 then .Filled else .Crossed))
        else intersectLoop valid (i + 1) n acc

/-- `solve_line` of the source. -/
def solve_line (lineSize : Nat) (rule : List Nat) (user : List CellState) :
    Option (Except String (List CellState)) :=
  if rule = [] ∨ rule = [0] then crossOutLoop user 0 lineSize user
  else
    match generate_possibilities lineSize rule with
    | none => none
    | some poss =>
      match filterCompat lineSize user poss with
      | none => none
      | some valid =>
        if valid = [] then some (.error contraMsg)
        else (intersectLoop valid 0 lineSize user).map .ok

/-! ## Grid propagator (`solve_puzzle`) -/

/-- `transpose` of the source: empty grid transposes to empty; otherwise
the width is taken from the first row.  The source assumes a rectangular
grid (a ragged one panics on the write `transposed[c][r]`); on rectangular
grids the `getD` defaults below are never used. -/
def transpose (grid : List (List CellState)) : List (List CellState) :=
  match grid with
  | [] => []
  | g0 :: _ =>
    (List.range g0.length).map fun c =>
      (List.range grid.length).map fun r => (grid.getD r []).getD c .Empty

/-- Result record returned to the host. -/
structure SolveResult where
  grid : List (List CellState)
  message : String
  error : Bool
deriving DecidableEq, Repr

/-- Fixed-point message: grid unchanged since invocation. -/
def noChangeMsg : String := "これ以上自動で確定できるマスはありません"

/-- Fixed-point message: grid changed since invocation. -/
def updatedMsg : String := "確定できるマスを更新しました"

/-- Iteration-cap message. -/
def capMsg : String :=
  "反復回数が上限に達しましたロジックが複雑すぎるか、矛盾があるかもしれません"

/-- Error message format for a contradiction in 1-indexed row `r + 1`. -/
def rowMsg (r : Nat) (e : String) : String := s!"行 {r + 1}: {e}"

/-- Error message format for a contradiction in 1-indexed column `c + 1`. -/
def colMsg (c : Nat) (e : String) : String := s!"列 {c + 1}: {e}"

/-- One phase of an iteration (rows, or columns on the transposed grid):
process lines `i, i+1, ..., i+n-1` in order, stopping at the first line
whose `solve_line` errors; the changed flag is or-ed with "the new line
differs".  Out-of-range access to the rule or grid vectors is the source's
panic (`none`). -/
def phase (lineSize : Nat) (rules : List (List Nat)) :
    Nat → Nat → List (List CellState) → Bool →
    Option (Except (Nat × String) (List (List CellState) × Bool))
  | _, 0, g, changed => some (.ok (g, changed))
  | i, n + 1, g, changed =>
    match rules[i]?, g[i]? with
    | some rule, some line =>
      match solve_line lineSize rule line with
      | none => none
      | some (.error e) => some (.error (i, e))
      | some (.ok newLine) =>
        phase lineSize rules (i + 1) n (g.set i newLine)
          (if newLine = line then changed else true)
    | _, _ => none

/-- One full iteration of the main loop: all rows, then all columns via
transposition, then transpose back.  The error carries whether it was a
row (`true`) or column (`false`), the 0-indexed line, and the line
solver's message. -/
def onePass (rows cols : Nat) (rowRules colRules : List (List Nat))
    (g : List (List CellState)) :
    Option (Except (Bool × Nat × String) (List (List CellState) × Bool)) :=
  match phase cols rowRules 0 rows g false with
  | none => none
  | some (.error (r, e)) => some (.error (true, r, e))
  | some (.ok (g1, ch)) =>
    match phase rows colRules 0 cols (transpose g1) ch with
    | none => none
    | some (.error (c, e)) => some (.error (false, c, e))
    | some (.ok (gt, changed)) => some (.ok (transpose gt, changed))

/-- One iteration of the `solve_puzzle` loop: the row phase, then the
column phase on the transposed grid, then the fixed-point check.  On a
contradiction the original grid is returned with the 1-indexed row/column
message; on a fixed point the loop exits successfully; otherwise the
continuation `k` decides between the next iteration and the cap error. -/
def solveStep (rows cols : Nat) (rowRules colRules : List (List Nat))
    (original : List (List CellState)) (g : List (List CellState))
    (k : List (List CellState) → Option SolveResult) : Option SolveResult :=
  match onePass rows cols rowRules colRules g with
  | none => none
  | some (.error (true, r, e)) => some ⟨original, rowMsg r e, true⟩
  | some (.error (false, c, e)) => some ⟨original, colMsg c e, true⟩
  | some (.ok (g2, changed)) =>
    if changed then k g2
    else some ⟨g2, if g2 = original then noChangeMsg else updatedMsg, false⟩

/-- The main loop of `solve_puzzle`.  In the source `iteration` counts up
and the loop exits with the cap error when `iteration >= max_iterations`
*after* the fixed-point check; here `fuel = max_iterations - iteration`
counts down, which produces exactly the same exit conditions (a `fuel` of
0 or 1 after a changing pass is the cap). -/
def solveLoop (rows cols : Nat) (rowRules colRules : List (List Nat))
    (original : List (List CellState)) :
    Nat → List (List CellState) → Option SolveResult
  | 0, g => solveStep rows cols rowRules colRules original g
      (fun g2 => some ⟨g2, capMsg, true⟩)
  | 1, g => solveStep rows cols rowRules colRules original g
      (fun g2 => some ⟨g2, capMsg, true⟩)
  | f + 2, g => solveStep rows cols rowRules colRules original g
      (fun g2 => solveLoop rows cols rowRules colRules original (f + 1) g2)

/-- `solve_puzzle` of the source (after deserialization): the loop starts
on the initial grid with `max_iterations = (rows + cols) * 2`, remembering
the original grid for contradiction results and the final message. -/
def solve_puzzle (rows cols : Nat) (rowRules colRules : List (List Nat))
    (initialGrid : List (List CellState)) : Option SolveResult :=
  solveLoop rows cols rowRules colRules initialGrid ((rows + cols) * 2)
    initialGrid

/-- `k` full iterations of `onePass` in sequence, for relating the cap
result to the state after the last completed iteration (C8). -/
def iteratePass (rows cols : Nat) (rowRules colRules : List (List Nat)) :
    Nat → List (List CellState) →
    Option (Except (Bool × Nat × String) (List (List CellState)))
  | 0, g => some (.ok g)
  | k + 1, g =>
    match onePass rows cols rowRules colRules g with
    | none => none
    | some (.error e) => some (.error e)
    | some (.ok (g2, _)) => iteratePass rows cols rowRules colRules k g2

/-! ## Spec-side helpers for the grid claims -/

/-- Modelled from the spec: an arrangement is consistent with the current
line when every Filled cell carries a 1 and every Crossed cell a 0; Empty
cells impose nothing. -/
def specConsistent (lineSize : Nat) (user : List CellState) (p : List Nat) :
    Bool :=
  (List.range lineSize).all fun i =>
    match user.getD i .Empty with
    | .Filled => p.getD i 9 == 1
    | .Crossed => p.getD i 9 == 0
    | .Empty => true

/-- Cell of a grid at row `r`, column `c`. -/
def cellAt (g : List (List CellState)) (r c : Nat) : CellState :=
  (g.getD r []).getD c .Empty

/-- A well-formed `rows × cols` grid, as the boundary contract supplies. -/
def rectangular (rows cols : Nat) (g : List (List CellState)) : Prop :=
  g.length = rows ∧ ∀ row ∈ g, row.length = cols

instance {ε α : Type} [DecidableEq ε] [DecidableEq α] :
    DecidableEq (Except ε α)
  | .error a, .error b =>
    if h : a = b then .isTrue (by rw [h])
    else .isFalse (by intro hh; cases hh; exact h rfl)
  | .error _, .ok _ => .isFalse (by intro h; cases h)
  | .ok _, .error _ => .isFalse (by intro h; cases h)
  | .ok a, .ok b =>
    if h : a = b then .isTrue (by rw [h])
    else .isFalse (by intro hh; cases hh; exact h rfl)

/-! # Theorems

## Boundary decode (C2) -/

lemma visit_u64_error_of_gt {n : Nat} (h : 2 < n) :
    visit_u64 n = .error s!"invalid cell state: {n}" := by
  match n, h with
  | n + 3, _ => rfl

/-- C2 counterexample: the floating-point value `-1` decodes successfully
to `Empty` (the rounded value is cast to `u64` by a saturating cast, which
collapses every negative float to 0), although the claim requires every
negative number to be a decode error. -/
theorem c2_decode_counterexample :
    visit_f64 (-1 : ℚ) = Except.ok CellState.Empty := by
  norm_num [visit_f64, roundHalfAway, f64AsU64, visit_u64]

/-- C2 amended: u64 values 0/1/2 decode to Empty/Filled/Crossed and all
other u64 values are errors; negative i64 values (which bit-cast to values
at least `2^63`) are errors; a float is rounded half away from zero and
saturated into u64, so floats below `1/2` — including every negative
float — decode to `Empty`, floats in `[1/2, 3/2)` to `Filled`, floats in
`[3/2, 5/2)` to `Crossed`, and floats at least `5/2` are errors. -/
theorem c2_decode_amended :
    (visit_u64 0 = .ok .Empty ∧ visit_u64 1 = .ok .Filled ∧
      visit_u64 2 = .ok .Crossed) ∧
    (∀ n : Nat, 2 < n → ∃ m, visit_u64 n = .error m) ∧
    (∀ v : Int, -(2 ^ 63) ≤ v → v < 0 → ∃ m, visit_i64 v = .error m) ∧
    (∀ q : ℚ, q < 0 → visit_f64 q = .ok .Empty) ∧
    (∀ q : ℚ, 0 ≤ q → q < 1 / 2 → visit_f64 q = .ok .Empty) ∧
    (∀ q : ℚ, 1 / 2 ≤ q → q < 3 / 2 → visit_f64 q = .ok .Filled) ∧
    (∀ q : ℚ, 3 / 2 ≤ q → q < 5 / 2 → visit_f64 q = .ok .Crossed) ∧
    (∀ q : ℚ, 5 / 2 ≤ q → ∃ m, visit_f64 q = .error m) := by
  refine ⟨⟨rfl, rfl, rfl⟩, ?_, ?_, ?_, ?_, ?_, ?_, ?_⟩
  · exact fun n h => ⟨_, visit_u64_error_of_gt h⟩
  · intro v h1 h2
    have hm : (2 : Int) ^ 63 ≤ v % 2 ^ 64 := by omega
    have : 2 < i64AsU64 v := by
      unfold i64AsU64; omega
    exact ⟨_, visit_u64_error_of_gt this⟩
  · intro q hq
    have h0 : (0 : ℤ) ≤ ⌊-q + 1 / 2⌋ := Int.floor_nonneg.mpr (by linarith)
    unfold visit_f64 roundHalfAway f64AsU64
    rw [if_pos hq]
    by_cases h1 : -⌊-q + 1 / 2⌋ < 0
    · rw [if_pos h1]; rfl
    · rw [if_neg h1]
      have hz : ⌊-q + 1 / 2⌋ = 0 := by omega
      rw [hz]; rfl
  · intro q hq0 hq1
    have hr : ⌊q + 1 / 2⌋ = 0 :=
      Int.floor_eq_iff.mpr ⟨by push_cast; linarith, by push_cast; linarith⟩
    unfold visit_f64 roundHalfAway f64AsU64
    rw [if_neg (not_lt.mpr hq0), hr]; rfl
  · intro q hq0 hq1
    have hr : ⌊q + 1 / 2⌋ = 1 :=
      Int.floor_eq_iff.mpr ⟨by push_cast; linarith, by push_cast; linarith⟩
    unfold visit_f64 roundHalfAway f64AsU64
    rw [if_neg (by intro h; linarith : ¬ q < 0), hr]
    decide
  · intro q hq0 hq1
    have hr : ⌊q + 1 / 2⌋ = 2 :=
      Int.floor_eq_iff.mpr ⟨by push_cast; linarith, by push_cast; linarith⟩
    unfold visit_f64 roundHalfAway f64AsU64
    rw [if_neg (by intro h; linarith : ¬ q < 0), hr]
    decide
  · intro q hq
    have h3 : (3 : ℤ) ≤ ⌊q + 1 / 2⌋ := by
      rw [Int.le_floor]; push_cast; linarith
    unfold visit_f64 roundHalfAway f64AsU64
    rw [if_neg (by intro h; linarith : ¬ q < 0)]
    rw [if_neg (by omega : ¬ -- an artifact line
      ⌊q + 1 / 2⌋ < 0)]
    refine ⟨_, visit_u64_error_of_gt ?_⟩
    have ha : (3 : ℕ) ≤ (⌊q + 1 / 2⌋).toNat := by omega
    have hb : (3 : ℕ) ≤ 2 ^ 64 - 1 := by norm_num
    exact lt_of_lt_of_le (by norm_num) (le_min ha hb)

/-- C2 witness: the amended decode behaviour at concrete inputs — `5` as
u64 errors, `-1` as i64 errors, `-3.0` decodes to Empty, `2.0` decodes to
Crossed, `2.5` errors. -/
theorem c2_decode_amended_witness :
    (∃ m, visit_u64 5 = .error m) ∧ (∃ m, visit_i64 (-1) = .error m) ∧
    visit_f64 (-3 : ℚ) = .ok .Empty ∧ visit_f64 (2 : ℚ) = .ok .Crossed ∧
    (∃ m, visit_f64 (5 / 2 : ℚ) = .error m) :=
  ⟨c2_decode_amended.2.1 5 (by norm_num),
   c2_decode_amended.2.2.1 (-1) (by norm_num) (by norm_num),
   c2_decode_amended.2.2.2.1 (-3) (by norm_num),
   c2_decode_amended.2.2.2.2.2.2.1 2 (by norm_num) (by norm_num),
   c2_decode_amended.2.2.2.2.2.2.2 (5 / 2) (by norm_num)⟩

/-! ## Run-length toolkit (for C4) -/

lemma runsAux_cons_one (c : Nat) (t : List Nat) :
    runsAux c (1 :: t) = runsAux (c + 1) t := by
  simp [runsAux]

lemma runsAux_cons_zero (c : Nat) (t : List Nat) :
    runsAux c (0 :: t) = if c = 0 then runsAux 0 t else c :: runsAux 0 t := by
  simp [runsAux]

lemma oneRuns_cons_zero (t : List Nat) : oneRuns (0 :: t) = oneRuns t := by
  simp [oneRuns, runsAux]

lemma runsAux_ones : ∀ (L c : Nat) (t : List Nat),
    runsAux c (List.replicate L 1 ++ t) = runsAux (c + L) t
  | 0, c, t => by simp
  | L + 1, c, t => by
    simp only [List.replicate_succ, List.cons_append, runsAux_cons_one]
    rw [runsAux_ones L (c + 1) t, show c + 1 + L = c + (L + 1) by omega]

lemma oneRuns_zeros (m : Nat) : oneRuns (List.replicate m 0) = [] := by
  induction m with
  | zero => rfl
  | succ n ih => simpa [List.replicate_succ, oneRuns_cons_zero] using ih

lemma oneRuns_zeros_append (g : Nat) (t : List Nat) :
    oneRuns (List.replicate g 0 ++ t) = oneRuns t := by
  induction g with
  | zero => simp
  | succ n ih => simpa [List.replicate_succ, oneRuns_cons_zero] using ih

lemma runsAux_ne_nil : ∀ (t : List Nat) (c : Nat), 0 < c → runsAux c t ≠ []
  | [], c, hc => by
    simp only [runsAux, if_neg (by omega : ¬ c = 0)]; simp
  | x :: t, c, hc => by
    by_cases hx : x = 1
    · subst hx; rw [runsAux_cons_one]
      exact runsAux_ne_nil t (c + 1) (by omega)
    · simp only [runsAux, if_neg hx, if_neg (by omega : ¬ c = 0)]; simp

lemma headD_replicate_zero (z : Nat) :
    (List.replicate z (0 : Nat)).headD 0 = 0 := by
  cases z <;> rfl

lemma oneRuns_ones_append (L : Nat) (hL : 0 < L) (u : List Nat)
    (hb : isBinary u) (hh : u.headD 0 ≠ 1) :
    oneRuns (List.replicate L 1 ++ u) = L :: oneRuns u := by
  unfold oneRuns
  rw [runsAux_ones]
  match u with
  | [] =>
    simp only [runsAux, if_neg (by omega : ¬ 0 + L = 0)]
    simp [Nat.zero_add]
  | 0 :: u' =>
    rw [runsAux_cons_zero, if_neg (by omega : ¬ 0 + L = 0)]
    rw [show runsAux 0 (0 :: u') = runsAux 0 u' from oneRuns_cons_zero u']
    simp [Nat.zero_add]
  | 1 :: u' => exact absurd (rfl : (1 :: u').headD 0 = 1) hh
  | (x + 2) :: u' => exact absurd (hb _ (List.mem_cons_self _ _)) (by omega)

lemma eq_replicate_of_oneRuns_nil : ∀ (t : List Nat), isBinary t →
    oneRuns t = [] → t = List.replicate t.length 0
  | [], _, _ => rfl
  | x :: t, hb, hr => by
    rcases hb x (List.mem_cons_self _ _) with h0 | h1
    · subst h0
      rw [oneRuns_cons_zero] at hr
      have ih := eq_replicate_of_oneRuns_nil t
        (fun y hy => hb y (List.mem_cons_of_mem _ hy)) hr
      simp only [List.length_cons, List.replicate_succ]
      exact congrArg (0 :: ·) ih
    · subst h1
      have : oneRuns (1 :: t) = runsAux 1 t := runsAux_cons_one 0 t
      rw [this] at hr
      exact absurd hr (runsAux_ne_nil t 1 (by omega))

lemma runsAux_length_bound : ∀ (t : List Nat) (c : Nat) (cl : List Nat),
    runsAux c t = cl → cl.sum + cl.length ≤ t.length + c + 1
  | [], c, cl, h => by
    by_cases hc : c = 0
    · subst hc; simp only [runsAux, if_pos rfl] at h; subst h; simp
    · simp only [runsAux, if_neg hc] at h; subst h; simp
  | x :: t, c, cl, h => by
    by_cases hx : x = 1
    · subst hx; rw [runsAux_cons_one] at h
      have := runsAux_length_bound t (c + 1) cl h
      simp only [List.length_cons]; omega
    · simp only [runsAux, if_neg hx] at h
      by_cases hc : c = 0
      · rw [if_pos hc] at h
        have := runsAux_length_bound t 0 cl h
        simp only [List.length_cons]; omega
      · rw [if_neg hc] at h
        subst h
        have := runsAux_length_bound t 0 (runsAux 0 t) rfl
        simp only [List.sum_cons, List.length_cons]; omega

lemma oneRuns_length_bound (t : List Nat) (cl : List Nat)
    (h : oneRuns t = cl) : cl.sum + cl.length ≤ t.length + 1 := by
  have := runsAux_length_bound t 0 cl h; omega

lemma runsAux_decomp_pos : ∀ (t : List Nat) (c : Nat), 0 < c →
    isBinary t → ∀ {K : Nat} {cl : List Nat}, runsAux c t = K :: cl →
    ∃ L u, t = List.replicate L 1 ++ u ∧ K = c + L ∧ u.headD 0 ≠ 1 ∧
      isBinary u ∧ oneRuns u = cl
  | [], c, hc, _, K, cl, h => by
    simp only [runsAux, if_neg (by omega : ¬ c = 0)] at h
    injection h with h1 h2
    refine ⟨0, [], by simp, by omega, by simp, by intro x hx; simp at hx, ?_⟩
    rw [← h2]; rfl
  | x :: t, c, hc, hb, K, cl, h => by
    by_cases hx : x = 1
    · subst hx
      rw [runsAux_cons_one] at h
      obtain ⟨L, u, ht, hK, hh, hub, hru⟩ :=
        runsAux_decomp_pos t (c + 1) (by omega)
          (fun y hy => hb y (List.mem_cons_of_mem _ hy)) h
      exact ⟨L + 1, u, by rw [List.replicate_succ, List.cons_append, ht],
        by omega, hh, hub, hru⟩
    · have hx0 : x = 0 := by
        rcases hb x (List.mem_cons_self _ _) with h0 | h1
        · exact h0
        · exact absurd h1 hx
      subst hx0
      rw [runsAux_cons_zero, if_neg (by omega : ¬ c = 0)] at h
      injection h with h1 h2
      refine ⟨0, 0 :: t, by simp, by omega, by simp, hb, ?_⟩
      rw [oneRuns_cons_zero, ← h2]; rfl

lemma oneRuns_decomp : ∀ (t : List Nat), isBinary t → ∀ {L : Nat}
    {cl : List Nat}, oneRuns t = L :: cl →
    ∃ g u, t = List.replicate g 0 ++ List.replicate L 1 ++ u ∧
      u.headD 0 ≠ 1 ∧ isBinary u ∧ oneRuns u = cl
  | [], _, L, cl, h => by simp [oneRuns, runsAux] at h
  | x :: t, hb, L, cl, h => by
    by_cases hx : x = 1
    · subst hx
      have h' : runsAux 1 t = L :: cl := by
        rw [← runsAux_cons_one 0 t]; exact h
      obtain ⟨L', u, ht, hK, hh, hub, hru⟩ :=
        runsAux_decomp_pos t 1 (by omega)
          (fun y hy => hb y (List.mem_cons_of_mem _ hy)) h'
      refine ⟨0, u, ?_, hh, hub, hru⟩
      simp [ht, hK, show 1 + L' = L' + 1 by omega, List.replicate_succ]
    · have hx0 : x = 0 := by
        rcases hb x (List.mem_cons_self _ _) with h0 | h1
        · exact h0
        · exact absurd h1 hx
      subst hx0
      rw [oneRuns_cons_zero] at h
      obtain ⟨g, u, ht, hh, hub, hru⟩ := oneRuns_decomp t
        (fun y hy => hb y (List.mem_cons_of_mem _ hy)) h
      exact ⟨g + 1, u, by simp [ht, List.replicate_succ], hh, hub, hru⟩

/-! ## Enumerator helpers (for C4) -/

lemma collectStarts_mem {f : Nat → Option (List (List Nat))} :
    ∀ {is : List Nat} {l : List (List Nat)}, collectStarts f is = some l →
    ∀ a, a ∈ l ↔ ∃ i ∈ is, ∃ li, f i = some li ∧ a ∈ li := by
  intro is
  induction is with
  | nil =>
    intro l h a
    simp only [collectStarts, Option.some.injEq] at h
    subst h; simp
  | cons i is ih =>
    intro l h a
    cases hfi : f i with
    | none => simp [collectStarts, hfi] at h
    | some li =>
      cases hcs : collectStarts f is with
      | none => simp [collectStarts, hfi, hcs] at h
      | some ls =>
        simp only [collectStarts, hfi, hcs, Option.some.injEq] at h
        subst h
        simp only [List.mem_append, List.mem_cons]
        constructor
        · rintro (hl | hl)
          · exact ⟨i, Or.inl rfl, li, hfi, hl⟩
          · obtain ⟨j, hj, lj, hfj, hal⟩ := (ih hcs a).mp hl
            exact ⟨j, Or.inr hj, lj, hfj, hal⟩
        · rintro ⟨j, hj | hj, lj, hfj, hal⟩
          · subst hj
            rw [hfi] at hfj
            injection hfj with hfj
            subst hfj
            exact Or.inl hal
          · exact Or.inr ((ih hcs a).mpr ⟨j, hj, lj, hfj, hal⟩)

lemma collectStarts_all_some {f : Nat → Option (List (List Nat))} :
    ∀ {is : List Nat}, (∀ i ∈ is, ∃ li, f i = some li) →
    ∃ l, collectStarts f is = some l := by
  intro is
  induction is with
  | nil => exact fun _ => ⟨[], rfl⟩
  | cons i is ih =>
    intro h
    obtain ⟨li, hli⟩ := h i (List.mem_cons_self _ _)
    obtain ⟨ls, hls⟩ := ih (fun j hj => h j (List.mem_cons_of_mem _ hj))
    exact ⟨li ++ ls, by simp [collectStarts, hli, hls]⟩

lemma collectStarts_nodup {f : Nat → Option (List (List Nat))} :
    ∀ {is : List Nat} {l : List (List Nat)}, collectStarts f is = some l →
    is.Nodup →
    (∀ i ∈ is, ∀ li, f i = some li → li.Nodup) →
    (∀ i ∈ is, ∀ j ∈ is, i ≠ j → ∀ a li lj, f i = some li →
      f j = some lj → a ∈ li → a ∈ lj → False) →
    l.Nodup := by
  intro is
  induction is with
  | nil =>
    intro l h _ _ _
    simp only [collectStarts, Option.some.injEq] at h
    subst h; exact List.nodup_nil
  | cons i is ih =>
    intro l h hnd hsome hdisj
    cases hfi : f i with
    | none => simp [collectStarts, hfi] at h
    | some li =>
      cases hcs : collectStarts f is with
      | none => simp [collectStarts, hfi, hcs] at h
      | some ls =>
        simp only [collectStarts, hfi, hcs, Option.some.injEq] at h
        subst h
        rw [List.nodup_append]
        refine ⟨hsome i (List.mem_cons_self _ _) li hfi,
          ih hcs (List.Nodup.of_cons hnd)
            (fun j hj => hsome j (List.mem_cons_of_mem _ hj))
            (fun j hj k hk hjk => hdisj j (List.mem_cons_of_mem _ hj) k
              (List.mem_cons_of_mem _ hk) hjk), ?_⟩
        intro a hali hals
        obtain ⟨j, hj, lj, hfj, haj⟩ := (collectStarts_mem hcs a).mp hals
        have hij : i ≠ j := by
          rintro rfl
          exact (List.nodup_cons.mp hnd).1 hj
        exact hdisj i (List.mem_cons_self _ _) j (List.mem_cons_of_mem _ hj)
          hij a li lj hfi hfj hali haj

lemma foldl_set_length (js : List Nat) (i : Nat) :
    ∀ b : List Nat,
      (js.foldl (fun b j => b.set (i + j) 1) b).length = b.length := by
  induction js with
  | nil => intro b; rfl
  | cons j js ih => intro b; rw [List.foldl_cons, ih, List.length_set]

lemma placeBlock_length (buf : List Nat) (i L : Nat) :
    (placeBlock buf i L).length = buf.length := foldl_set_length _ _ _

lemma placeBlock_succ (buf : List Nat) (i L : Nat) :
    placeBlock buf i (L + 1) = (placeBlock buf i L).set (i + L) 1 := by
  unfold placeBlock
  rw [List.range_succ, List.foldl_append, List.foldl_cons, List.foldl_nil]

lemma set_append_right' {α : Type} : ∀ (l1 l2 : List α) (n : Nat) (v : α),
    l1.length ≤ n → (l1 ++ l2).set n v = l1 ++ l2.set (n - l1.length) v
  | [], l2, n, v, _ => by simp
  | x :: l1, l2, 0, v, h => by simp at h
  | x :: l1, l2, n + 1, v, h => by
    simp only [List.cons_append, List.set_cons_succ, List.length_cons,
      Nat.succ_sub_succ]
    rw [set_append_right' l1 l2 n v (by simpa using h)]

lemma placeBlock_spec : ∀ (L : Nat) (P : List Nat) (g z : Nat),
    placeBlock (P ++ List.replicate (g + L + z) 0) (P.length + g) L =
      P ++ List.replicate g 0 ++ List.replicate L 1 ++ List.replicate z 0
  | 0, P, g, z => by
    simp only [placeBlock, List.range_zero, List.foldl_nil,
      List.replicate_zero]
    rw [Nat.add_zero, List.replicate_add]
    simp [List.append_assoc]
  | L + 1, P, g, z => by
    rw [placeBlock_succ]
    have h1 : g + (L + 1) + z = g + L + (z + 1) := by omega
    rw [h1, placeBlock_spec L P g (z + 1)]
    have hlen : (P ++ List.replicate g 0 ++ List.replicate L 1).length =
        P.length + g + L := by simp; omega
    rw [show P ++ List.replicate g 0 ++ List.replicate L 1 ++
        List.replicate (z + 1) 0 =
        (P ++ List.replicate g 0 ++ List.replicate L 1) ++
        List.replicate (z + 1) 0 from by simp [List.append_assoc]]
    rw [set_append_right' _ _ _ _ (le_of_eq hlen)]
    rw [hlen, Nat.sub_self, List.replicate_succ, List.set_cons_zero]
    rw [show List.replicate (L + 1) 1 = List.replicate L 1 ++ [1] from
      List.replicate_succ' L 1]
    simp [List.append_assoc]

lemma getD_replicate_of_lt {α : Type} (a d : α) {n k : Nat} (h : k < n) :
    (List.replicate n a).getD k d = a := by
  rw [List.getD_eq_getElem _ _ (by simpa using h), List.getElem_replicate]

lemma zeros_ones_getD_first {L : Nat} (hL : 0 < L) (g : Nat) (u : List Nat) :
    (List.replicate g 0 ++ (List.replicate L 1 ++ u)).getD g 0 = 1 := by
  rw [List.getD_append_right _ _ _ _ (by simp)]
  simp only [List.length_replicate, Nat.sub_self]
  match L, hL with
  | L + 1, _ => rfl

lemma zeros_ones_getD_lt {L : Nat} (g : Nat) (u : List Nat) {k : Nat}
    (hk : k < g) :
    (List.replicate g 0 ++ (List.replicate L 1 ++ u)).getD k 0 = 0 := by
  rw [List.getD_append _ _ _ _ (by simpa using hk)]
  exact getD_replicate_of_lt _ _ hk

lemma zeros_ones_inj {L L' : Nat} (hL : 0 < L) (hL' : 0 < L')
    {g g' : Nat} {u u' : List Nat}
    (h : List.replicate g 0 ++ (List.replicate L 1 ++ u) =
      List.replicate g' 0 ++ (List.replicate L' 1 ++ u')) : g = g' := by
  rcases Nat.lt_trichotomy g g' with hlt | heq | hgt
  · have h1 := zeros_ones_getD_first hL g u
    rw [h, zeros_ones_getD_lt g' u' hlt] at h1
    cases h1
  · exact heq
  · have h1 := zeros_ones_getD_first hL' g' u'
    rw [← h, zeros_ones_getD_lt g u hgt] at h1
    cases h1

/-! ## Enumerator main lemma (for C4) -/

lemma recurse_spec : ∀ (cl P : List Nat) (m : Nat),
    (∀ x ∈ cl, 0 < x) → cl.sum + cl.length ≤ m + 1 →
    ∃ l, recurse (P.length + m) (cl.length + 1) cl P.length
          (P ++ List.replicate m 0) = some l ∧ l.Nodup ∧
      ∀ a, a ∈ l ↔ ∃ t, a = P ++ t ∧ t.length = m ∧ isBinary t ∧
        oneRuns t = cl
  | [], P, m, _, _ => by
    refine ⟨[P ++ List.replicate m 0], rfl, List.nodup_singleton _, ?_⟩
    intro a
    simp only [List.mem_singleton]
    constructor
    · rintro rfl
      exact ⟨List.replicate m 0, rfl, by simp,
        fun x hx => Or.inl (List.eq_of_mem_replicate hx), oneRuns_zeros m⟩
    · rintro ⟨t, rfl, hlen, hbin, hruns⟩
      have ht := eq_replicate_of_oneRuns_nil t hbin hruns
      rw [ht, hlen]
  | L :: rest, P, m, hpos, hle => by
    have hL : 0 < L := hpos L (List.mem_cons_self _ _)
    have hrest : ∀ x ∈ rest, 0 < x :=
      fun x hx => hpos x (List.mem_cons_of_mem _ hx)
    have key : rest.sum + rest.length + L ≤ m := by
      simp only [List.sum_cons, List.length_cons] at hle; omega
    have hguard : ¬ P.length + m < rest.sum + rest.length + L := by omega
    have hcount : P.length + m - (rest.sum + rest.length) - L + 1 - P.length =
        m - (rest.sum + rest.length) - L + 1 := by omega
    have hunf : recurse (P.length + m) ((L :: rest).length + 1) (L :: rest)
        P.length (P ++ List.replicate m 0) =
        collectStarts
          (fun i => recurse (P.length + m) (rest.length + 1) rest (i + L + 1)
            (placeBlock (P ++ List.replicate m 0) i L))
          (List.range' P.length
            (m - (rest.sum + rest.length) - L + 1)) := by
      show recurse (P.length + m) (rest.length + 1 + 1) (L :: rest)
        P.length (P ++ List.replicate m 0) = _
      rw [recurse]
      rw [if_neg hguard]
      simp only [hcount]
    -- the per-start characterisation
    have perg : ∀ g ≤ m - (rest.sum + rest.length) - L, ∃ lg,
        recurse (P.length + m) (rest.length + 1) rest (P.length + g + L + 1)
          (placeBlock (P ++ List.replicate m 0) (P.length + g) L) = some lg ∧
        lg.Nodup ∧
        ∀ a, a ∈ lg ↔ ∃ u,
          a = P ++ (List.replicate g 0 ++ (List.replicate L 1 ++ u)) ∧
          u.length = m - g - L ∧ isBinary u ∧ u.headD 0 ≠ 1 ∧
          oneRuns u = rest := by
      intro g hg
      have hgL : g + L ≤ m := by omega
      have hplace : placeBlock (P ++ List.replicate m 0) (P.length + g) L =
          P ++ List.replicate g 0 ++ List.replicate L 1 ++
            List.replicate (m - g - L) 0 := by
        rw [show m = g + L + (m - g - L) by omega]
        rw [placeBlock_spec L P g (m - g - L)]
        congr 2
        omega
      by_cases hre : rest = []
      · subst hre
        refine ⟨[placeBlock (P ++ List.replicate m 0) (P.length + g) L],
          rfl, List.nodup_singleton _, ?_⟩
        intro a
        simp only [List.mem_singleton, hplace]
        constructor
        · rintro rfl
          refine ⟨List.replicate (m - g - L) 0, by simp [List.append_assoc],
            by simp, fun x hx => Or.inl (List.eq_of_mem_replicate hx),
            by rw [headD_replicate_zero]; omega, oneRuns_zeros _⟩
        · rintro ⟨u, rfl, hulen, hubin, _, huruns⟩
          have hu := eq_replicate_of_oneRuns_nil u hubin huruns
          rw [hu, hulen]
          simp [List.append_assoc]
      · have hsp1 : 1 ≤ rest.length := by
          cases rest with
          | nil => exact absurd rfl hre
          | cons r0 rest' => simp
        have hz : rest.sum + rest.length ≤ m - g - L := by omega
        have hbufeq : placeBlock (P ++ List.replicate m 0) (P.length + g) L =
            (P ++ List.replicate g 0 ++ List.replicate L 1 ++ [0]) ++
              List.replicate (m - g - L - 1) 0 := by
          rw [hplace, show m - g - L = (m - g - L - 1) + 1 by omega,
            List.replicate_succ]
          simp [List.append_assoc]
        have hP'len : (P ++ List.replicate g 0 ++ List.replicate L 1 ++
            [0]).length = P.length + g + L + 1 := by simp; omega
        obtain ⟨lg, hlg, hnd, hmem⟩ := recurse_spec rest
          (P ++ List.replicate g 0 ++ List.replicate L 1 ++ [0])
          (m - g - L - 1) hrest (by omega)
        rw [hP'len] at hlg
        rw [show P.length + g + L + 1 + (m - g - L - 1) = P.length + m
          by omega] at hlg
        refine ⟨lg, by rw [hbufeq]; exact hlg, hnd, ?_⟩
        intro a
        rw [hmem a]
        constructor
        · rintro ⟨t', rfl, htlen, htbin, htruns⟩
          refine ⟨0 :: t', by simp [List.append_assoc], by simp; omega,
            ?_, by simp, by rw [oneRuns_cons_zero]; exact htruns⟩
          intro x hx
          rcases List.mem_cons.mp hx with h0 | hmem'
          · exact Or.inl h0
          · exact htbin x hmem'
        · rintro ⟨u, rfl, hulen, hubin, huh, huruns⟩
          match u, hulen with
          | x :: u', hulen =>
            have hx0 : x = 0 := by
              rcases hubin x (List.mem_cons_self _ _) with h0 | h1
              · exact h0
              · exact absurd h1 (by simpa using huh)
            subst hx0
            refine ⟨u', by simp [List.append_assoc], by simp at hulen; omega,
              fun y hy => hubin y (List.mem_cons_of_mem _ hy), ?_⟩
            rw [← oneRuns_cons_zero u']; exact huruns
          | [], hulen => simp at hulen; omega
    -- every start index succeeds
    have hall : ∀ i ∈ List.range' P.length
        (m - (rest.sum + rest.length) - L + 1), ∃ li,
        recurse (P.length + m) (rest.length + 1) rest (i + L + 1)
          (placeBlock (P ++ List.replicate m 0) i L) = some li := by
      intro i hi
      rw [List.mem_range'_1] at hi
      obtain ⟨g, hgG, rfl⟩ :
          ∃ g ≤ m - (rest.sum + rest.length) - L, i = P.length + g :=
        ⟨i - P.length, by omega, by omega⟩
      obtain ⟨lg, hlg, _, _⟩ := perg g hgG
      exact ⟨lg, hlg⟩
    obtain ⟨l, hl⟩ := collectStarts_all_some hall
    refine ⟨l, by rw [hunf]; exact hl, ?_, ?_⟩
    · -- Nodup
      refine collectStarts_nodup hl (List.nodup_range' _ _) ?_ ?_
      · intro i hi li hfi
        rw [List.mem_range'_1] at hi
        obtain ⟨g, hgG, rfl⟩ :
            ∃ g ≤ m - (rest.sum + rest.length) - L, i = P.length + g :=
          ⟨i - P.length, by omega, by omega⟩
        obtain ⟨lg, hlg, hnd, _⟩ := perg g hgG
        rw [hlg] at hfi
        injection hfi with hfi
        subst hfi
        exact hnd
      · intro i hi j hj hij a li lj hfi hfj hali halj
        rw [List.mem_range'_1] at hi hj
        obtain ⟨g, hgG, rfl⟩ :
            ∃ g ≤ m - (rest.sum + rest.length) - L, i = P.length + g :=
          ⟨i - P.length, by omega, by omega⟩
        obtain ⟨g', hgG', rfl⟩ :
            ∃ g' ≤ m - (rest.sum + rest.length) - L, j = P.length + g' :=
          ⟨j - P.length, by omega, by omega⟩
        obtain ⟨lg, hlg, _, hmemg⟩ := perg g hgG
        obtain ⟨lg', hlg', _, hmemg'⟩ := perg g' hgG'
        rw [hlg] at hfi; injection hfi with hfi; subst hfi
        rw [hlg'] at hfj; injection hfj with hfj; subst hfj
        obtain ⟨u, hau, _, _, _, _⟩ := (hmemg a).mp hali
        obtain ⟨u', hau', _, _, _, _⟩ := (hmemg' a).mp halj
        rw [hau] at hau'
        have := List.append_cancel_left hau'
        exact hij (by rw [zeros_ones_inj hL hL this])
    · -- membership
      intro a
      rw [collectStarts_mem hl a]
      constructor
      · rintro ⟨i, hi, li, hfi, hali⟩
        rw [List.mem_range'_1] at hi
        obtain ⟨g, hgG, rfl⟩ :
            ∃ g ≤ m - (rest.sum + rest.length) - L, i = P.length + g :=
          ⟨i - P.length, by omega, by omega⟩
        obtain ⟨lg, hlg, _, hmemg⟩ := perg g hgG
        rw [hlg] at hfi; injection hfi with hfi; subst hfi
        obtain ⟨u, rfl, hulen, hubin, huh, huruns⟩ := (hmemg a).mp hali
        refine ⟨List.replicate g 0 ++ (List.replicate L 1 ++ u), rfl,
          by simp; omega, ?_, ?_⟩
        · intro x hx
          rcases List.mem_append.mp hx with hx | hx
          · exact Or.inl (List.eq_of_mem_replicate hx)
          · rcases List.mem_append.mp hx with hx | hx
            · exact Or.inr (List.eq_of_mem_replicate hx)
            · exact hubin x hx
        · rw [oneRuns_zeros_append, oneRuns_ones_append L hL u hubin huh,
            huruns]
      · rintro ⟨t, rfl, htlen, htbin, htruns⟩
        obtain ⟨g, u, hdecomp, huh, hubin, huruns⟩ :=
          oneRuns_decomp t htbin htruns
        have htlen' : t.length = g + L + u.length := by
          rw [hdecomp]; simp; omega
        have huge : rest.sum + rest.length ≤ u.length := by
          by_cases hre : rest = []
          · subst hre; simp
          · match u, huruns with
            | [], huruns =>
              exact absurd huruns.symm (by simpa [oneRuns, runsAux] using hre)
            | x :: u', huruns =>
              have hx0 : x = 0 := by
                rcases hubin x (List.mem_cons_self _ _) with h0 | h1
                · exact h0
                · exact absurd h1 (by simpa using huh)
              subst hx0
              rw [oneRuns_cons_zero] at huruns
              have := oneRuns_length_bound u' rest huruns
              simp only [List.length_cons]; omega
        have hgG : g ≤ m - (rest.sum + rest.length) - L := by omega
        obtain ⟨lg, hlg, _, hmemg⟩ := perg g hgG
        refine ⟨P.length + g, by rw [List.mem_range'_1]; omega, lg, hlg, ?_⟩
        rw [hmemg]
        exact ⟨u, by rw [hdecomp]; simp [List.append_assoc], by omega,
          hubin, huh, huruns⟩

/-! ## Enumerator fault (C1) -/

/-- C1: contrary to the claim, the enumerator does not return an empty
sequence for an oversized clue: whenever the required space of the clue
exceeds `line_size`, the latest-start subtraction underflows and the
source faults (modelled as `none`). -/
theorem c1_impossible_clue_faults (size : Nat) (rule : List Nat)
    (h : size < requiredSpace rule) :
    generate_possibilities size rule = none := by
  unfold generate_possibilities
  by_cases hz : rule = [] ∨ rule = [0]
  · exfalso
    rcases hz with h0 | h0 <;> subst h0 <;> simp [requiredSpace] at h
  · rw [if_neg hz]
    match rule, h with
    | L :: rest, h =>
      have hreq : requiredSpace (L :: rest) = L + rest.sum + rest.length := by
        simp only [requiredSpace, List.sum_cons, List.length_cons]; omega
      rw [hreq] at h
      simp only [List.length_cons, recurse]
      rw [if_pos (by omega)]

/-- C1 witness: the concrete impossible clue of the claim,
`enumerate(3, [5])`, faults. -/
theorem c1_impossible_clue_faults_witness :
    3 < requiredSpace [5] ∧ generate_possibilities 3 [5] = none :=
  ⟨by decide, c1_impossible_clue_faults 3 [5] (by decide)⟩

/-! ## Enumerator soundness, completeness, duplicate-freeness (C4) -/

lemma recurse_length : ∀ (fuel : Nat) (size : Nat) (cl : List Nat)
    (start : Nat) (buf : List Nat) (l : List (List Nat)),
    recurse size fuel cl start buf = some l → ∀ a ∈ l, a.length = buf.length
  | 0, _, _, _, _, _, h => by cases h
  | fuel + 1, size, [], start, buf, l, h => by
    injection h with h
    subst h
    intro a ha
    rw [List.mem_singleton.mp ha]
  | fuel + 1, size, L :: rest, start, buf, l, h => by
    rw [recurse] at h
    by_cases hg : size < rest.sum + rest.length + L
    · rw [if_pos hg] at h; cases h
    · rw [if_neg hg] at h
      intro a ha
      obtain ⟨i, _, li, hfi, hai⟩ := (collectStarts_mem h a).mp ha
      have := recurse_length fuel size rest (i + L + 1)
        (placeBlock buf i L) li hfi a hai
      rw [this, placeBlock_length]

lemma generate_possibilities_length {size : Nat} {rule : List Nat}
    {l : List (List Nat)} (h : generate_possibilities size rule = some l) :
    ∀ a ∈ l, a.length = size := by
  unfold generate_possibilities at h
  by_cases hz : rule = [] ∨ rule = [0]
  · rw [if_pos hz] at h
    injection h with h
    subst h
    intro a ha
    rw [List.mem_singleton.mp ha]
    simp
  · rw [if_neg hz] at h
    intro a ha
    have := recurse_length (rule.length + 1) size rule 0
      (List.replicate size 0) l h a ha
    simpa using this

/-- C4 counterexample: for the clue `[1, 0]` (a zero block after a block
of one) on a line of size 3, the enumerator records the arrangement
`[1,0,0]` twice — the zero-length block "placed" at two different start
indices yields identical arrangements — so the output is not
duplicate-free, and the arrangement has 1 maximal run, not
`len(clue) = 2`. -/
theorem c4_enumerator_counterexample :
    generate_possibilities 3 [1, 0] =
      some [[1, 0, 0], [1, 0, 0], [0, 1, 0]] ∧
    ¬ ([[1, 0, 0], [1, 0, 0], [0, 1, 0]] : List (List Nat)).Nodup ∧
    oneRuns [1, 0, 0] ≠ [1, 0] :=
  ⟨by decide, by decide, by decide⟩

/-- C4 amended: for every clue whose blocks are all positive (the empty
clue included) and whose required space fits the line, the enumerator
returns without fault a duplicate-free list whose members are exactly the
binary sequences of length `line_size` whose maximal runs of 1s are the
clue, in order.  (Clues containing zero blocks can produce duplicates and
wrong run counts — see the counterexample — and oversized clues fault,
see C1.) -/
theorem c4_enumerator_amended (size : Nat) (rule : List Nat)
    (hpos : ∀ x ∈ rule, 0 < x) (hfit : requiredSpace rule ≤ size) :
    ∃ l, generate_possibilities size rule = some l ∧ l.Nodup ∧
      ∀ a, a ∈ l ↔ (a.length = size ∧ isBinary a ∧ oneRuns a = rule) := by
  match rule with
  | [] =>
    refine ⟨[List.replicate size 0], by simp [generate_possibilities],
      List.nodup_singleton _, ?_⟩
    intro a
    simp only [List.mem_singleton]
    constructor
    · rintro rfl
      exact ⟨by simp, fun x hx => Or.inl (List.eq_of_mem_replicate hx),
        oneRuns_zeros _⟩
    · rintro ⟨hlen, hbin, hruns⟩
      rw [eq_replicate_of_oneRuns_nil a hbin hruns, hlen]
  | L :: rest =>
    have hL : 0 < L := hpos L (List.mem_cons_self _ _)
    have hne : ¬ ((L :: rest : List Nat) = [] ∨
        (L :: rest : List Nat) = [0]) := by
      rintro (h | h)
      · cases h
      · injection h with h1 h2; omega
    obtain ⟨l, hl, hnd, hmem⟩ := recurse_spec (L :: rest) [] size hpos
      (by simp only [requiredSpace, List.sum_cons, List.length_cons]
            at hfit ⊢
          omega)
    refine ⟨l, ?_, hnd, ?_⟩
    · unfold generate_possibilities
      rw [if_neg hne]
      simpa using hl
    · intro a
      rw [hmem a]
      simp

/-- C4 witness: the amended enumeration property instantiated at the
feasible clue `[3]` on a line of size 5. -/
theorem c4_enumerator_amended_witness :
    requiredSpace [3] ≤ 5 ∧
    ∃ l, generate_possibilities 5 [3] = some l ∧ l.Nodup ∧
      ∀ a, a ∈ l ↔ (a.length = 5 ∧ isBinary a ∧ oneRuns a = [3]) :=
  ⟨by decide, c4_enumerator_amended 5 [3] (by decide) (by decide)⟩

/-! ## Line-solver helpers (for C5, C6, C7) -/

lemma getD_set_self {α : Type} (l : List α) (i : Nat) (v d : α)
    (h : i < l.length) : (l.set i v).getD i d = v := by
  rw [List.getD_eq_getElem _ _ (by simpa using h)]
  exact List.getElem_set_self _

lemma getD_set_ne {α : Type} (l : List α) {i j : Nat} (v d : α)
    (h : i ≠ j) : (l.set i v).getD j d = l.getD j d := by
  by_cases hj : j < l.length
  · rw [List.getD_eq_getElem _ _ (by simpa using hj),
      List.getD_eq_getElem _ _ hj]
    exact List.getElem_set_ne h _
  · rw [List.getD_eq_default _ _ (by simpa using not_lt.mp hj),
      List.getD_eq_default _ _ (not_lt.mp hj)]

lemma getD_ne_default_lt {α : Type} {l : List α} {k : Nat} {d : α}
    (h : l.getD k d ≠ d) : k < l.length := by
  by_contra hk
  exact h (List.getD_eq_default _ _ (not_lt.mp hk))

/-- If some cell of the scanned window is Filled, the zero-rule loop of
`solve_line` reports the contradiction (regardless of the accumulator). -/
lemma crossOutLoop_error : ∀ (n i : Nat) (user acc : List CellState),
    (∃ k, i ≤ k ∧ k < i + n ∧ user.getD k .Empty = .Filled) →
    crossOutLoop user i n acc = some (.error contraMsg)
  | 0, i, user, acc, h => by
    obtain ⟨k, h1, h2, _⟩ := h
    omega
  | n + 1, i, user, acc, h => by
    obtain ⟨k, hik, hkn, hkF⟩ := h
    have hkin : k < user.length := getD_ne_default_lt (by rw [hkF]; simp)
    have hiin : i < user.length := by omega
    rw [crossOutLoop]
    rw [List.getElem?_eq_getElem hiin]
    dsimp only
    by_cases hv : user[i] = CellState.Filled
    · rw [if_pos hv]
    · rw [if_neg hv]
      have hki : k ≠ i := by
        intro hh
        subst hh
        rw [List.getD_eq_getElem _ _ hkin] at hkF
        exact hv hkF
      exact crossOutLoop_error n (i + 1) user _ ⟨k, by omega, by omega, hkF⟩

/-- Success inversion for the zero-rule loop: the window was in bounds and
Filled-free, every window cell of the result is Crossed, and everything
outside the window is the accumulator. -/
lemma crossOutLoop_ok_inv : ∀ (n i : Nat) (user acc res : List CellState),
    crossOutLoop user i n acc = some (.ok res) →
    acc.length = user.length →
    res.length = acc.length ∧
    (∀ j, j < i ∨ i + n ≤ j → res.getD j .Empty = acc.getD j .Empty) ∧
    (∀ j, i ≤ j → j < i + n → res.getD j .Empty = .Crossed) ∧
    (∀ j, i ≤ j → j < i + n → user.getD j .Empty ≠ .Filled)
  | 0, i, user, acc, res, h, hacc => by
    injection h with h
    injection h with h
    subst h
    exact ⟨rfl, fun j _ => rfl, fun j h1 h2 => by omega,
      fun j h1 h2 => by omega⟩
  | n + 1, i, user, acc, res, h, hacc => by
    rw [crossOutLoop] at h
    cases hui : user[i]? with
    | none => rw [hui] at h; cases h
    | some v =>
      rw [hui] at h
      dsimp only at h
      have hiin : i < user.length := by
        by_contra hc
        rw [List.getElem?_eq_none (not_lt.mp hc)] at hui
        cases hui
      by_cases hv : v = CellState.Filled
      · rw [if_pos hv] at h
        injection h with h
        cases h
      · rw [if_neg hv] at h
        obtain ⟨hlen, hout, hwin, hnf⟩ := crossOutLoop_ok_inv n (i + 1) user
          (acc.set i .Crossed) res h (by rw [List.length_set]; exact hacc)
        have hgetDi : user.getD i .Empty = v := by
          rw [List.getD_eq_getElem _ _ hiin]
          have h2 := (List.getElem?_eq_getElem hiin).symm.trans hui
          injection h2
        refine ⟨by rw [hlen, List.length_set], ?_, ?_, ?_⟩
        · intro j hj
          have hij : i ≠ j := by omega
          rw [hout j (by omega), getD_set_ne _ _ _ hij]
        · intro j h1 h2
          by_cases heq : j = i
          · rw [heq, hout i (Or.inl (by omega)), getD_set_self _ _ _ _
              (by rw [hacc]; exact hiin)]
          · exact hwin j (by omega) (by omega)
        · intro j h1 h2
          by_cases heq : j = i
          · rw [heq, hgetDi]; exact hv
          · exact hnf j (by omega) (by omega)

/-- Production form of the zero-rule loop: a Filled-free in-bounds window
crosses out exactly the window. -/
lemma crossOutLoop_ok : ∀ (n i : Nat) (user acc : List CellState),
    i + n ≤ user.length → acc.length = user.length →
    (∀ k, i ≤ k → k < i + n → user.getD k .Empty ≠ .Filled) →
    ∃ res, crossOutLoop user i n acc = some (.ok res) ∧
      res.length = acc.length ∧
      (∀ j, j < i ∨ i + n ≤ j → res.getD j .Empty = acc.getD j .Empty) ∧
      (∀ j, i ≤ j → j < i + n → res.getD j .Empty = .Crossed)
  | 0, i, user, acc, _, _, _ =>
    ⟨acc, rfl, rfl, fun j _ => rfl, fun j h1 h2 => by omega⟩
  | n + 1, i, user, acc, hin, hacc, hnf => by
    have hiin : i < user.length := by omega
    have hv : user.getD i .Empty ≠ .Filled := hnf i le_rfl (by omega)
    rw [List.getD_eq_getElem _ _ hiin] at hv
    obtain ⟨res, hres, hlen, hout, hwin⟩ := crossOutLoop_ok n (i + 1) user
      (acc.set i .Crossed) (by omega) (by rw [List.length_set]; exact hacc)
      (fun k hk1 hk2 => hnf k (by omega) (by omega))
    refine ⟨res, ?_, by rw [hlen, List.length_set], ?_, ?_⟩
    · rw [crossOutLoop, List.getElem?_eq_getElem hiin]
      dsimp only
      rw [if_neg hv]
      exact hres
    · intro j hj
      have hij : i ≠ j := by omega
      rw [hout j (by omega), getD_set_ne _ _ _ hij]
    · intro j h1 h2
      by_cases heq : j = i
      · rw [heq, hout i (Or.inl (by omega)), getD_set_self _ _ _ _
          (by rw [hacc]; exact hiin)]
      · exact hwin j (by omega) (by omega)

/-! ## Zero clue (C7) -/

/-- C7: for a line whose clue is `[]` or `[0]`: a Filled cell anywhere in
the line is a contradiction; otherwise the whole line becomes Crossed. -/
theorem c7_zero_clue (n : Nat) (rule : List Nat) (line : List CellState)
    (hz : rule = [] ∨ rule = [0]) (hlen : line.length = n) :
    ((∃ k, k < n ∧ line.getD k .Empty = .Filled) →
      solve_line n rule line = some (.error contraMsg)) ∧
    ((∀ k, k < n → line.getD k .Empty ≠ .Filled) →
      solve_line n rule line =
        some (.ok (List.replicate n CellState.Crossed))) := by
  constructor
  · rintro ⟨k, hk, hkF⟩
    unfold solve_line
    rw [if_pos hz]
    exact crossOutLoop_error n 0 line line ⟨k, by omega, by omega, hkF⟩
  · intro hnf
    unfold solve_line
    rw [if_pos hz]
    obtain ⟨res, hres, hrlen, hout, hwin⟩ := crossOutLoop_ok n 0 line line
      (by omega) rfl (fun k h1 h2 => hnf k (by omega))
    rw [hres]
    have : res = List.replicate n CellState.Crossed := by
      rw [List.eq_replicate_iff]
      refine ⟨by omega, ?_⟩
      intro b hb
      obtain ⟨j, hj, hbj⟩ := List.mem_iff_getElem.mp hb
      have hc := hwin j (by omega) (by omega)
      rw [List.getD_eq_getElem _ _ hj] at hc
      rw [← hbj, hc]
    rw [this]

/-- C7 witness: the two concrete examples of the claim. -/
theorem c7_zero_clue_witness :
    solve_line 4 [] (List.replicate 4 CellState.Empty) =
      some (.ok (List.replicate 4 CellState.Crossed)) ∧
    solve_line 4 [0] [CellState.Filled, .Empty, .Empty, .Empty] =
      some (.error contraMsg) :=
  ⟨(c7_zero_clue 4 [] _ (Or.inl rfl) (by decide)).2 (by decide),
   (c7_zero_clue 4 [0] _ (Or.inr rfl) (by decide)).1
     ⟨0, by decide, by decide⟩⟩

/-! ## General path of the line solver (C6) -/

lemma compatLoop_some : ∀ (n i : Nat) (user : List CellState) (p : List Nat),
    i + n ≤ user.length →
    ∃ b, compatLoop user p i n = some b ∧
      (b = true ↔ ∀ k, i ≤ k → k < i + n →
        cellFits (user.getD k .Empty) (p.getD k 9) = true)
  | 0, i, user, p, _ =>
    ⟨true, rfl, ⟨fun _ k h1 h2 => by omega, fun _ => rfl⟩⟩
  | n + 1, i, user, p, hin => by
    have hiin : i < user.length := by omega
    rw [compatLoop, List.getElem?_eq_getElem hiin]
    dsimp only
    have hgetDi : user.getD i .Empty = user[i] :=
      List.getD_eq_getElem _ _ hiin
    by_cases hfit : cellFits user[i] (p.getD i 9) = true
    · rw [if_pos hfit]
      obtain ⟨b, hb, hiff⟩ := compatLoop_some n (i + 1) user p (by omega)
      refine ⟨b, hb, ?_⟩
      rw [hiff]
      constructor
      · intro hall k h1 h2
        by_cases heq : k = i
        · rw [heq, hgetDi]; exact hfit
        · exact hall k (by omega) (by omega)
      · intro hall k h1 h2
        exact hall k (by omega) (by omega)
    · rw [if_neg hfit]
      refine ⟨false, rfl, ?_⟩
      constructor
      · intro h; cases h
      · intro hall
        exact absurd (by rw [← hgetDi]; exact hall i (by omega) (by omega))
          hfit

lemma specConsistent_eq_all (n : Nat) (user : List CellState)
    (p : List Nat) :
    specConsistent n user p = (List.range n).all
      (fun i => cellFits (user.getD i .Empty) (p.getD i 9)) := by
  unfold specConsistent
  congr 1

lemma filterCompat_spec : ∀ (ps : List (List Nat)) (n : Nat)
    (user : List CellState), n ≤ user.length →
    filterCompat n user ps =
      some (ps.filter (fun p => specConsistent n user p))
  | [], n, user, _ => rfl
  | p :: ps, n, user, hn => by
    obtain ⟨b, hb, hiff⟩ := compatLoop_some n 0 user p (by omega)
    have hspec : specConsistent n user p = b := by
      rw [specConsistent_eq_all]
      cases b with
      | true =>
        rw [List.all_eq_true]
        intro i hi
        rw [List.mem_range] at hi
        exact hiff.mp rfl i (by omega) (by omega)
      | false =>
        rw [← Bool.not_eq_true]
        intro hall
        rw [List.all_eq_true] at hall
        exact absurd (hiff.mpr (fun k h1 h2 =>
          hall k (List.mem_range.mpr (by omega)))) (by simp)
    rw [filterCompat, hb]
    cases b with
    | true =>
      dsimp only
      rw [filterCompat_spec ps n user hn]
      rw [List.filter_cons_of_pos (by rw [hspec])]
      rfl
    | false =>
      dsimp only
      rw [filterCompat_spec ps n user hn]
      rw [List.filter_cons_of_neg (by rw [hspec]; simp)]

lemma intersectLoop_spec : ∀ (n i : Nat) (valid : List (List Nat))
    (acc : List CellState), i + n ≤ acc.length →
    ∃ res, intersectLoop valid i n acc = some res ∧
      res.length = acc.length ∧
      (∀ j, j < i ∨ i + n ≤ j → res.getD j .Empty = acc.getD j .Empty) ∧
      (∀ j, i ≤ j → j < i + n →
        res.getD j .Empty =
          if acc.getD j .Empty ≠ .Empty then acc.getD j .Empty
          else if valid.all
              (fun p => p.getD j 9 == (valid.headD []).getD j 9) then
            (if (valid.headD []).getD j 9 = 1 then .Filled else .Crossed)
          else .Empty)
  | 0, i, valid, acc, _ =>
    ⟨acc, rfl, rfl, fun j _ => rfl, fun j h1 h2 => by omega⟩
  | n + 1, i, valid, acc, hin => by
    have hiin : i < acc.length := by omega
    rw [intersectLoop, List.getElem?_eq_getElem hiin]
    dsimp only
    have hgetDi : acc.getD i .Empty = acc[i] := List.getD_eq_getElem _ _ hiin
    by_cases hv : acc[i] ≠ CellState.Empty
    · rw [if_pos hv]
      obtain ⟨res, hres, hlen, hout, hwin⟩ :=
        intersectLoop_spec n (i + 1) valid acc (by omega)
      refine ⟨res, hres, hlen, ?_, ?_⟩
      · intro j hj
        exact hout j (by omega)
      · intro j h1 h2
        by_cases heq : j = i
        · subst heq
          rw [hout j (by omega), if_pos (by rw [hgetDi]; exact hv)]
        · exact hwin j (by omega) (by omega)
    · rw [if_neg hv]
      rw [not_not] at hv
      by_cases hall : valid.all
          (fun p => p.getD i 9 == (valid.headD []).getD i 9) = true
      · rw [if_pos hall]
        obtain ⟨res, hres, hlen, hout, hwin⟩ := intersectLoop_spec n (i + 1)
          valid (acc.set i (if (valid.headD []).getD i 9 = 1 then .Filled
            else .Crossed)) (by rw [List.length_set]; omega)
        refine ⟨res, hres, by rw [hlen, List.length_set], ?_, ?_⟩
        · intro j hj
          have hij : i ≠ j := by omega
          rw [hout j (by omega), getD_set_ne _ _ _ hij]
        · intro j h1 h2
          by_cases heq : j = i
          · subst heq
            rw [hout j (Or.inl (by omega)), getD_set_self _ _ _ _ hiin]
            rw [if_neg (show ¬(acc.getD j CellState.Empty ≠ CellState.Empty)
              from by rw [hgetDi, hv]; simp), if_pos hall]
          · rw [hwin j (by omega) (by omega),
              getD_set_ne _ _ _ (by omega : i ≠ j)]
      · rw [if_neg hall]
        obtain ⟨res, hres, hlen, hout, hwin⟩ :=
          intersectLoop_spec n (i + 1) valid acc (by omega)
        refine ⟨res, hres, hlen, ?_, ?_⟩
        · intro j hj
          exact hout j (by omega)
        · intro j h1 h2
          by_cases heq : j = i
          · subst heq
            rw [hout j (by omega), if_neg (by rw [hgetDi, hv]; simp),
              if_neg hall, hgetDi, hv]
          · exact hwin j (by omega) (by omega)

lemma intersectLoop_inv : ∀ (n i : Nat) (valid : List (List Nat))
    (acc res : List CellState), intersectLoop valid i n acc = some res →
    res.length = acc.length ∧
    ∀ j, acc.getD j .Empty ≠ .Empty → res.getD j .Empty = acc.getD j .Empty
  | 0, i, valid, acc, res, h => by
    injection h with h
    subst h
    exact ⟨rfl, fun j _ => rfl⟩
  | n + 1, i, valid, acc, res, h => by
    rw [intersectLoop] at h
    cases hai : acc[i]? with
    | none => rw [hai] at h; cases h
    | some v =>
      rw [hai] at h
      dsimp only at h
      have hiin : i < acc.length := by
        by_contra hc
        rw [List.getElem?_eq_none (not_lt.mp hc)] at hai
        cases hai
      have hgetDi : acc.getD i .Empty = v := by
        rw [List.getD_eq_getElem _ _ hiin]
        have h2 := (List.getElem?_eq_getElem hiin).symm.trans hai
        injection h2
      by_cases hv : v ≠ CellState.Empty
      · rw [if_pos hv] at h
        exact intersectLoop_inv n (i + 1) valid acc res h
      · rw [if_neg hv] at h
        rw [not_not] at hv
        subst hv
        by_cases hall : valid.all
            (fun p => p.getD i 9 == (valid.headD []).getD i 9) = true
        · rw [if_pos hall] at h
          obtain ⟨hlen, hmono⟩ := intersectLoop_inv n (i + 1) valid _ res h
          refine ⟨by rw [hlen, List.length_set], ?_⟩
          intro j hj
          have hij : i ≠ j := by
            intro hh
            rw [← hh] at hj
            exact hj hgetDi
          rw [hmono j (by rw [getD_set_ne _ _ _ hij]; exact hj),
            getD_set_ne _ _ _ hij]
        · rw [if_neg hall] at h
          exact intersectLoop_inv n (i + 1) valid acc res h

/-- C6 counterexample: for the non-zero clue `[5]` on a line of size 3 no
arrangement survives, but instead of signalling the contradiction the
code faults inside the enumerator (the C1 underflow), so `solve_line`
does not produce the error result the claim requires. -/
theorem c6_solve_line_counterexample :
    solve_line 3 [5] (List.replicate 3 CellState.Empty) = none ∧
    (none : Option (Except String (List CellState))) ≠
      some (.error contraMsg) :=
  ⟨by decide, by decide⟩

/-- C6 amended: whenever the enumerator returns without fault,
`solve_line` keeps exactly the arrangements consistent with the current
line (Filled needs 1, Crossed needs 0, Empty imposes nothing), errors if
none survive, and for every still-Empty cell forces Filled when all
survivors carry 1, Crossed when all carry 0, and leaves Empty when they
disagree; non-Empty cells pass through.  The claim's concrete example
`solve_line(5, [3], all-Empty) = [Empty, Empty, Filled, Empty, Empty]`
holds. -/
theorem c6_solve_line_amended :
    (∀ (n : Nat) (rule : List Nat) (line : List CellState)
      (poss : List (List Nat)), ¬(rule = [] ∨ rule = [0]) →
      line.length = n → generate_possibilities n rule = some poss →
      (poss.filter (fun p => specConsistent n line p) = [] →
        solve_line n rule line = some (.error contraMsg)) ∧
      (poss.filter (fun p => specConsistent n line p) ≠ [] →
        ∃ res, solve_line n rule line = some (.ok res) ∧ res.length = n ∧
          ∀ i, i < n →
            (line.getD i .Empty ≠ .Empty →
              res.getD i .Empty = line.getD i .Empty) ∧
            (line.getD i .Empty = .Empty →
              ((∀ p ∈ poss.filter (fun p => specConsistent n line p),
                  p.getD i 9 = 1) → res.getD i .Empty = .Filled) ∧
              ((∀ p ∈ poss.filter (fun p => specConsistent n line p),
                  p.getD i 9 = 0) → res.getD i .Empty = .Crossed) ∧
              ((∃ p ∈ poss.filter (fun p => specConsistent n line p),
                ∃ q ∈ poss.filter (fun p => specConsistent n line p),
                  p.getD i 9 ≠ q.getD i 9) →
                res.getD i .Empty = .Empty)))) ∧
    solve_line 5 [3] (List.replicate 5 CellState.Empty) =
      some (.ok [CellState.Empty, .Empty, .Filled, .Empty, .Empty]) := by
  constructor
  · intro n rule line poss hnz hlen hposs
    have hfc := filterCompat_spec poss n line (by omega)
    constructor
    · intro hnil
      unfold solve_line
      rw [if_neg hnz, hposs]
      dsimp only
      rw [hfc]
      dsimp only
      rw [hnil, if_pos rfl]
    · intro hne
      obtain ⟨res, hres, hrlen, hout, hwin⟩ := intersectLoop_spec n 0
        (poss.filter (fun p => specConsistent n line p)) line (by omega)
      refine ⟨res, ?_, by omega, ?_⟩
      · unfold solve_line
        rw [if_neg hnz, hposs]
        dsimp only
        rw [hfc]
        dsimp only
        rw [if_neg hne, hres]
        rfl
      · intro i hi
        have hhead : (poss.filter (fun p => specConsistent n line p)).headD
            [] ∈ poss.filter (fun p => specConsistent n line p) := by
          match poss.filter (fun p => specConsistent n line p), hne with
          | v :: vs, _ => exact List.mem_cons_self _ _
        have hifx := hwin i (by omega) (by omega)
        constructor
        · intro hne'
          rw [hifx, if_pos hne']
        · intro hemp
          refine ⟨?_, ?_, ?_⟩
          · intro hall1
            have hfst := hall1 _ hhead
            have hallb : (poss.filter (fun p => specConsistent n line p)).all
                (fun p => p.getD i 9 ==
                  ((poss.filter (fun p => specConsistent n line p)).headD
                    []).getD i 9) = true := by
              rw [List.all_eq_true]
              intro p hp
              rw [beq_iff_eq, hfst]
              exact hall1 p hp
            rw [hifx, if_neg (by rw [hemp]; simp), if_pos hallb, hfst,
              if_pos rfl]
          · intro hall0
            have hfst := hall0 _ hhead
            have hallb : (poss.filter (fun p => specConsistent n line p)).all
                (fun p => p.getD i 9 ==
                  ((poss.filter (fun p => specConsistent n line p)).headD
                    []).getD i 9) = true := by
              rw [List.all_eq_true]
              intro p hp
              rw [beq_iff_eq, hfst]
              exact hall0 p hp
            rw [hifx, if_neg (by rw [hemp]; simp), if_pos hallb, hfst,
              if_neg (by omega)]
          · rintro ⟨p, hp, q, hq, hpq⟩
            have hallb : ¬ ((poss.filter
                (fun p => specConsistent n line p)).all
                (fun p => p.getD i 9 ==
                  ((poss.filter (fun p => specConsistent n line p)).headD
                    []).getD i 9) = true) := by
              rw [List.all_eq_true]
              intro hall
              have h1 := hall p hp
              have h2 := hall q hq
              rw [beq_iff_eq] at h1 h2
              exact hpq (h1.trans h2.symm)
            rw [hifx, if_neg (by rw [hemp]; simp), if_neg hallb]
  · decide

/-- C6 witness: the general characterisation instantiated at the claim's
concrete input `(5, [3], all-Empty)`. -/
theorem c6_solve_line_amended_witness :
    ∃ res, solve_line 5 [3] (List.replicate 5 CellState.Empty) =
      some (.ok res) ∧ res.length = 5 := by
  obtain ⟨h1, -⟩ := c6_solve_line_amended
  obtain ⟨-, h2⟩ := h1 5 [3] (List.replicate 5 CellState.Empty)
    [[1, 1, 1, 0, 0], [0, 1, 1, 1, 0], [0, 0, 1, 1, 1]]
    (by decide) (by decide) (by decide)
  obtain ⟨res, hres, hrlen, -⟩ := h2 (by decide)
  exact ⟨res, hres, hrlen⟩

/-! ## Line-solver monotonicity (for C5) -/

/-- Success inversion for `solve_line`: the result has the line's length
and every already-decided (non-Empty) cell passes through unchanged. -/
lemma solve_line_ok_inv {n : Nat} {rule : List Nat}
    {user res : List CellState}
    (h : solve_line n rule user = some (.ok res)) :
    res.length = user.length ∧
    ∀ j, user.getD j .Empty ≠ .Empty →
      res.getD j .Empty = user.getD j .Empty := by
  unfold solve_line at h
  by_cases hz : rule = [] ∨ rule = [0]
  · rw [if_pos hz] at h
    obtain ⟨hlen, hout, hwin, hnf⟩ := crossOutLoop_ok_inv n 0 user user res
      h rfl
    refine ⟨hlen, ?_⟩
    intro j hj
    by_cases hjn : j < n
    · have hCr := hwin j (by omega) (by omega)
      have hne := hnf j (by omega) (by omega)
      cases hu : user.getD j .Empty with
      | Empty => exact absurd hu hj
      | Filled => exact absurd hu hne
      | Crossed => rw [hCr]
    · exact hout j (by omega)
  · rw [if_neg hz] at h
    cases hgen : generate_possibilities n rule with
    | none => rw [hgen] at h; cases h
    | some poss =>
      rw [hgen] at h
      dsimp only at h
      cases hfc : filterCompat n user poss with
      | none => rw [hfc] at h; cases h
      | some valid =>
        rw [hfc] at h
        dsimp only at h
        by_cases hv : valid = []
        · rw [if_pos hv] at h
          injection h with h
          cases h
        · rw [if_neg hv] at h
          cases hil : intersectLoop valid 0 n user with
          | none => rw [hil] at h; cases h
          | some res' =>
            rw [hil] at h
            injection h with h
            injection h with h
            subst h
            exact intersectLoop_inv n 0 valid user res' hil

/-! ## Grid helpers (for C3, C5, C8, C9, C10) -/

lemma getElem?_set_ne {α : Type} (l : List α) {i j : Nat} (v : α)
    (h : i ≠ j) : (l.set i v)[j]? = l[j]? := by
  by_cases hj : j < l.length
  · rw [List.getElem?_eq_getElem (by simpa using hj),
      List.getElem?_eq_getElem hj, List.getElem_set_ne h]
  · rw [List.getElem?_eq_none (by simpa using not_lt.mp hj),
      List.getElem?_eq_none (not_lt.mp hj)]

lemma set_eq_self_of_getElem? {α : Type} (l : List α) (i : Nat) (v : α)
    (h : l[i]? = some v) : l.set i v = l := by
  have hi : i < l.length := by
    by_contra hc
    rw [List.getElem?_eq_none (not_lt.mp hc)] at h
    cases h
  apply List.ext_getElem (by rw [List.length_set])
  intro j h1 h2
  rw [List.getElem_set]
  by_cases hij : i = j
  · rw [if_pos hij]
    subst hij
    have h2 := (List.getElem?_eq_getElem hi).symm.trans h
    injection h2 with h2
    exact h2.symm
  · rw [if_neg hij]

lemma cellAt_nil (r c : Nat) : cellAt [] r c = .Empty := rfl

lemma transpose_eq_of_rect {rows cols : Nat} {g : List (List CellState)}
    (hg : rectangular rows cols g) (hR : 0 < rows) :
    transpose g = (List.range cols).map
      (fun c => (List.range rows).map (fun r => cellAt g r c)) := by
  obtain ⟨hlen, hrow⟩ := hg
  match g, hR, hlen with
  | g0 :: gs, _, hlen =>
    have h0 : g0.length = cols := hrow g0 (List.mem_cons_self _ _)
    simp only [transpose, h0, hlen]
    rfl

lemma transpose_shape {rows cols : Nat} {g : List (List CellState)}
    (hg : rectangular rows cols g) (hR : 0 < rows) :
    rectangular cols rows (transpose g) := by
  rw [transpose_eq_of_rect hg hR]
  constructor
  · simp
  · intro row hrow
    simp only [List.mem_map] at hrow
    obtain ⟨c, _, rfl⟩ := hrow
    simp

lemma eq_nil_of_rect_zero {cols : Nat} {g : List (List CellState)}
    (hg : rectangular 0 cols g) : g = [] := by
  have := hg.1
  cases g with
  | nil => rfl
  | cons a b => simp at this

lemma getD_map_range {α : Type} (f : Nat → α) (d : α) (n k : Nat) :
    ((List.range n).map f).getD k d = if k < n then f k else d := by
  by_cases hk : k < n
  · rw [if_pos hk, List.getD_eq_getElem _ _ (by simpa using hk)]
    simp
  · rw [if_neg hk, List.getD_eq_default _ _ (by simpa using not_lt.mp hk)]

lemma cellAt_oob {rows cols : Nat} {g : List (List CellState)}
    (hg : rectangular rows cols g) {r c : Nat}
    (h : rows ≤ r ∨ cols ≤ c) : cellAt g r c = .Empty := by
  unfold cellAt
  by_cases hr : r < g.length
  · rw [List.getD_eq_getElem _ _ hr]
    rcases h with h | h
    · exact absurd (hg.1 ▸ hr) (by omega)
    · exact List.getD_eq_default _ _
        (by rw [hg.2 _ (List.getElem_mem hr)]; omega)
  · rw [List.getD_eq_default _ _ (not_lt.mp hr)]
    rfl

lemma cellAt_transpose {rows cols : Nat} {g : List (List CellState)}
    (hg : rectangular rows cols g) :
    ∀ r c, cellAt (transpose g) c r = cellAt g r c := by
  intro r c
  by_cases hR : 0 < rows
  · have htr := transpose_eq_of_rect hg hR
    have hts := transpose_shape hg hR
    by_cases hc : c < cols
    · by_cases hr : r < rows
      · show (((transpose g).getD c []).getD r .Empty) = _
        rw [htr, getD_map_range, if_pos hc, getD_map_range, if_pos hr]
      · rw [cellAt_oob hts (Or.inr (by omega)),
          cellAt_oob hg (Or.inl (by omega))]
    · rw [cellAt_oob hts (Or.inl (by omega)),
        cellAt_oob hg (Or.inr (by omega))]
  · have hr0 : rows = 0 := by omega
    subst hr0
    rw [eq_nil_of_rect_zero hg]
    rfl

lemma grid_ext {rows cols : Nat} {g g' : List (List CellState)}
    (hg : rectangular rows cols g) (hg' : rectangular rows cols g')
    (h : ∀ r c, r < rows → c < cols → cellAt g r c = cellAt g' r c) :
    g = g' := by
  apply List.ext_getElem (by rw [hg.1, hg'.1])
  intro r h1 h2
  apply List.ext_getElem
  · rw [hg.2 _ (List.getElem_mem h1), hg'.2 _ (List.getElem_mem h2)]
  intro c hc1 hc2
  have hr : r < rows := by rw [← hg.1]; exact h1
  have hc : c < cols := by
    rw [← hg.2 _ (List.getElem_mem h1)]; exact hc1
  have hcell := h r c hr hc
  unfold cellAt at hcell
  rw [List.getD_eq_getElem _ _ h1, List.getD_eq_getElem _ _ h2,
    List.getD_eq_getElem _ _ hc1, List.getD_eq_getElem _ _ hc2] at hcell
  exact hcell

lemma transpose_transpose {rows cols : Nat} {g : List (List CellState)}
    (hg : rectangular rows cols g) (hR : 0 < rows) (hC : 0 < cols) :
    transpose (transpose g) = g := by
  have h1 := transpose_shape hg hR
  have h2 := transpose_shape h1 hC
  apply grid_ext h2 hg
  intro r c hr hc
  rw [cellAt_transpose h1 c r, cellAt_transpose hg r c]

/-! ## Phase lemmas (for C3, C5, C8, C9) -/

lemma crossOutLoop_error_msg : ∀ (n i : Nat) (user acc : List CellState)
    (e : String), crossOutLoop user i n acc = some (.error e) →
    e = contraMsg
  | 0, i, user, acc, e, h => by
    injection h with h
    injection h
  | n + 1, i, user, acc, e, h => by
    rw [crossOutLoop] at h
    cases hui : user[i]? with
    | none => rw [hui] at h; cases h
    | some v =>
      rw [hui] at h
      dsimp only at h
      by_cases hv : v = CellState.Filled
      · rw [if_pos hv] at h
        injection h with h
        injection h with h
        exact h.symm
      · rw [if_neg hv] at h
        exact crossOutLoop_error_msg n (i + 1) user _ e h

lemma solve_line_error_msg {n : Nat} {rule : List Nat}
    {user : List CellState} {e : String}
    (h : solve_line n rule user = some (.error e)) : e = contraMsg := by
  unfold solve_line at h
  by_cases hz : rule = [] ∨ rule = [0]
  · rw [if_pos hz] at h
    exact crossOutLoop_error_msg n 0 user user e h
  · rw [if_neg hz] at h
    cases hgen : generate_possibilities n rule with
    | none => rw [hgen] at h; cases h
    | some poss =>
      rw [hgen] at h
      dsimp only at h
      cases hfc : filterCompat n user poss with
      | none => rw [hfc] at h; cases h
      | some valid =>
        rw [hfc] at h
        dsimp only at h
        by_cases hv : valid = []
        · rw [if_pos hv] at h
          injection h with h
          injection h with h
          exact h.symm
        · rw [if_neg hv] at h
          cases hil : intersectLoop valid 0 n user with
          | none => rw [hil] at h; cases h
          | some res' =>
            rw [hil] at h
            injection h with h
            injection h

lemma phase_ok_inv : ∀ (n i ls : Nat) (rules : List (List Nat))
    (g g' : List (List CellState)) (ch ch' : Bool),
    phase ls rules i n g ch = some (.ok (g', ch')) →
    g'.length = g.length ∧
    (∀ r, r < i ∨ i + n ≤ r → g'.getD r [] = g.getD r []) ∧
    (∀ r, i ≤ r → r < i + n → ∃ rule line nl,
      rules[r]? = some rule ∧ g[r]? = some line ∧
      solve_line ls rule line = some (.ok nl) ∧ g'.getD r [] = nl) ∧
    (ch' = false → ch = false ∧ g' = g)
  | 0, i, ls, rules, g, g', ch, ch', h => by
    injection h with h
    injection h with h
    injection h with h1 h2
    subst h1
    subst h2
    exact ⟨rfl, fun r _ => rfl, fun r h1 h2 => by omega,
      fun hf => ⟨hf, rfl⟩⟩
  | n + 1, i, ls, rules, g, g', ch, ch', h => by
    rw [phase] at h
    cases hrule : rules[i]? with
    | none => rw [hrule] at h; dsimp only at h; cases h
    | some rule =>
      cases hline : g[i]? with
      | none => rw [hrule, hline] at h; dsimp only at h; cases h
      | some line =>
        rw [hrule, hline] at h
        dsimp only at h
        cases hsl : solve_line ls rule line with
        | none => rw [hsl] at h; cases h
        | some exc =>
          rw [hsl] at h
          cases exc with
          | error e =>
            dsimp only at h
            injection h with h
            injection h
          | ok nl =>
            dsimp only at h
            obtain ⟨hlen, hout, hwin, hch⟩ := phase_ok_inv n (i + 1) ls
              rules (g.set i nl) g' _ ch' h
            have hiin : i < g.length := by
              by_contra hc
              rw [List.getElem?_eq_none (not_lt.mp hc)] at hline
              cases hline
            refine ⟨by rw [hlen, List.length_set], ?_, ?_, ?_⟩
            · intro r hr
              have hir : i ≠ r := by omega
              rw [hout r (by omega), getD_set_ne _ _ _ hir]
            · intro r h1 h2
              by_cases heq : r = i
              · subst heq
                refine ⟨rule, line, nl, hrule, hline, hsl, ?_⟩
                rw [hout r (Or.inl (by omega)), getD_set_self _ _ _ _ hiin]
              · obtain ⟨rule', line', nl', h1', h2', h3', h4'⟩ :=
                  hwin r (by omega) (by omega)
                refine ⟨rule', line', nl', h1', ?_, h3', h4'⟩
                rw [← getElem?_set_ne g nl (by omega : i ≠ r)]
                exact h2'
            · intro hch'
              obtain ⟨hch2, hgeq⟩ := hch hch'
              by_cases hnl : nl = line
              · rw [if_pos hnl] at hch2
                refine ⟨hch2, ?_⟩
                rw [hgeq, hnl, set_eq_self_of_getElem? g i line hline]
              · rw [if_neg hnl] at hch2
                cases hch2

lemma phase_error_inv : ∀ (n i ls : Nat) (rules : List (List Nat))
    (g : List (List CellState)) (ch : Bool) (r : Nat) (e : String),
    phase ls rules i n g ch = some (.error (r, e)) →
    i ≤ r ∧ r < i + n ∧ e = contraMsg ∧
    ∃ g' ch', phase ls rules i (r - i) g ch = some (.ok (g', ch')) ∧
      ∃ rule line, rules[r]? = some rule ∧ g'[r]? = some line ∧
        solve_line ls rule line = some (.error e)
  | 0, i, ls, rules, g, ch, r, e, h => by
    injection h with h
    injection h
  | n + 1, i, ls, rules, g, ch, r, e, h => by
    rw [phase] at h
    cases hrule : rules[i]? with
    | none => rw [hrule] at h; dsimp only at h; cases h
    | some rule =>
      cases hline : g[i]? with
      | none => rw [hrule, hline] at h; dsimp only at h; cases h
      | some line =>
        rw [hrule, hline] at h
        dsimp only at h
        cases hsl : solve_line ls rule line with
        | none => rw [hsl] at h; cases h
        | some exc =>
          rw [hsl] at h
          cases exc with
          | error e' =>
            dsimp only at h
            injection h with h
            injection h with h
            injection h with h1 h2
            subst h1
            subst h2
            refine ⟨le_rfl, by omega, solve_line_error_msg hsl, g, ch, ?_,
              rule, line, hrule, hline, hsl⟩
            rw [Nat.sub_self]
            rfl
          | ok nl =>
            dsimp only at h
            obtain ⟨h1, h2, h3, g'', ch'', hpre, rule', line', hr', hl',
              hsl'⟩ := phase_error_inv n (i + 1) ls rules (g.set i nl) _
                r e h
            refine ⟨by omega, by omega, h3, g'', ch'', ?_, rule', line',
              hr', hl', hsl'⟩
            have hri : r - i = (r - (i + 1)) + 1 := by omega
            rw [hri, phase, hrule, hline]
            dsimp only
            rw [hsl]
            dsimp only
            exact hpre

lemma phase_rows_length {n i ls : Nat} {rules : List (List Nat)}
    {g g' : List (List CellState)} {ch ch' : Bool}
    (h : phase ls rules i n g ch = some (.ok (g', ch'))) :
    ∀ r, (g'.getD r []).length = (g.getD r []).length := by
  obtain ⟨hlen, hout, hwin, _⟩ := phase_ok_inv n i ls rules g g' ch ch' h
  intro r
  by_cases hw : i ≤ r ∧ r < i + n
  · obtain ⟨rule, line, nl, _, hline, hsl, hg'⟩ := hwin r hw.1 hw.2
    have hr : r < g.length := by
      by_contra hc
      rw [List.getElem?_eq_none (not_lt.mp hc)] at hline
      cases hline
    have hlineD : g.getD r [] = line := by
      rw [List.getD_eq_getElem _ _ hr]
      have h2 := (List.getElem?_eq_getElem hr).symm.trans hline
      injection h2
    rw [hg', hlineD, (solve_line_ok_inv hsl).1]
  · rw [hout r (by omega)]

lemma phase_rect {rows cols n i ls : Nat} {rules : List (List Nat)}
    {g g' : List (List CellState)} {ch ch' : Bool}
    (hg : rectangular rows cols g)
    (h : phase ls rules i n g ch = some (.ok (g', ch'))) :
    rectangular rows cols g' := by
  obtain ⟨hlen, _, _, _⟩ := phase_ok_inv n i ls rules g g' ch ch' h
  refine ⟨by rw [hlen, hg.1], ?_⟩
  intro row hrow
  obtain ⟨r, hr, hrEq⟩ := List.mem_iff_getElem.mp hrow
  have h1 := phase_rows_length h r
  rw [List.getD_eq_getElem _ _ hr, hrEq] at h1
  have hrg : r < g.length := by omega
  rw [List.getD_eq_getElem _ _ hrg] at h1
  rw [h1]
  exact hg.2 _ (List.getElem_mem hrg)

lemma phase_cells_mono {n i ls : Nat} {rules : List (List Nat)}
    {g g' : List (List CellState)} {ch ch' : Bool}
    (h : phase ls rules i n g ch = some (.ok (g', ch'))) :
    ∀ r c, cellAt g r c ≠ .Empty → cellAt g' r c = cellAt g r c := by
  obtain ⟨hlen, hout, hwin, _⟩ := phase_ok_inv n i ls rules g g' ch ch' h
  intro r c hne
  by_cases hw : i ≤ r ∧ r < i + n
  · obtain ⟨rule, line, nl, _, hline, hsl, hg'⟩ := hwin r hw.1 hw.2
    have hr : r < g.length := by
      by_contra hc
      rw [List.getElem?_eq_none (not_lt.mp hc)] at hline
      cases hline
    have hlineD : g.getD r [] = line := by
      rw [List.getD_eq_getElem _ _ hr]
      have h2 := (List.getElem?_eq_getElem hr).symm.trans hline
      injection h2
    have hne' : line.getD c .Empty ≠ .Empty := by
      unfold cellAt at hne
      rw [hlineD] at hne
      exact hne
    show (g'.getD r []).getD c .Empty = (g.getD r []).getD c .Empty
    rw [hg', hlineD]
    exact (solve_line_ok_inv hsl).2 c hne'
  · show (g'.getD r []).getD c .Empty = (g.getD r []).getD c .Empty
    rw [hout r (by omega)]

/-! ## One-pass lemmas (for C3, C5, C8, C9) -/

lemma onePass_deg_none {cols : Nat} (rr cc : List (List Nat))
    (hcols : 0 < cols) :
    onePass 0 cols rr cc [] = none := by
  obtain ⟨c', rfl⟩ : ∃ c', cols = c' + 1 := ⟨cols - 1, by omega⟩
  unfold onePass
  have h1 : phase (c' + 1) rr 0 0 ([] : List (List CellState)) false =
      some (.ok ([], false)) := rfl
  rw [h1]
  dsimp only
  have h2 : phase 0 cc 0 (c' + 1) (transpose []) false = none := by
    rw [phase]
    cases hcc : cc[0]? with
    | none => rfl
    | some rule => rfl
  rw [h2]

lemma onePass_ok_inv {rows cols : Nat} {rr cc : List (List Nat)}
    {g g' : List (List CellState)} {ch : Bool}
    (hg : rectangular rows cols g) (hdeg : 0 < rows → 0 < cols)
    (h : onePass rows cols rr cc g = some (.ok (g', ch))) :
    rectangular rows cols g' ∧
    (∀ r c, cellAt g r c ≠ .Empty → cellAt g' r c = cellAt g r c) ∧
    (ch = false → g' = g) := by
  by_cases hR : 0 < rows
  · have hC := hdeg hR
    unfold onePass at h
    cases hp1 : phase cols rr 0 rows g false with
    | none => rw [hp1] at h; cases h
    | some exc1 =>
      rw [hp1] at h
      cases exc1 with
      | error pe =>
        obtain ⟨r, e⟩ := pe
        dsimp only at h
        injection h with h
        injection h
      | ok p1 =>
        obtain ⟨g1, ch1⟩ := p1
        dsimp only at h
        have hg1 : rectangular rows cols g1 := phase_rect hg hp1
        have htg : rectangular cols rows (transpose g1) :=
          transpose_shape hg1 hR
        cases hp2 : phase rows cc 0 cols (transpose g1) ch1 with
        | none => rw [hp2] at h; cases h
        | some exc2 =>
          rw [hp2] at h
          cases exc2 with
          | error pe =>
            obtain ⟨c, e⟩ := pe
            dsimp only at h
            injection h with h
            injection h
          | ok p2 =>
            obtain ⟨gt, ch2⟩ := p2
            dsimp only at h
            injection h with h
            injection h with h
            injection h with hA hB
            subst hA
            subst hB
            have hgt : rectangular cols rows gt := phase_rect htg hp2
            refine ⟨transpose_shape hgt hC, ?_, ?_⟩
            · intro r c hne
              by_cases hin : r < rows ∧ c < cols
              · have e1 : cellAt g1 r c = cellAt g r c :=
                  phase_cells_mono hp1 r c hne
                have e2 : cellAt (transpose g1) c r = cellAt g1 r c :=
                  cellAt_transpose hg1 r c
                have e3 : cellAt gt c r = cellAt (transpose g1) c r :=
                  phase_cells_mono hp2 c r (by rw [e2, e1]; exact hne)
                have e4 : cellAt (transpose gt) r c = cellAt gt c r :=
                  cellAt_transpose hgt c r
                rw [e4, e3, e2, e1]
              · exact absurd (cellAt_oob hg (by omega)) hne
            · intro hchf
              obtain ⟨hch1, hgteq⟩ :=
                (phase_ok_inv _ _ _ _ _ _ _ _ hp2).2.2.2 hchf
              obtain ⟨-, hg1eq⟩ :=
                (phase_ok_inv _ _ _ _ _ _ _ _ hp1).2.2.2 hch1
              rw [hgteq, hg1eq]
              exact transpose_transpose hg hR hC
  · have hr0 : rows = 0 := by omega
    subst hr0
    have hgnil : g = [] := eq_nil_of_rect_zero hg
    subst hgnil
    by_cases hc : 0 < cols
    · rw [onePass_deg_none rr cc hc] at h
      cases h
    · have hc0 : cols = 0 := by omega
      subst hc0
      have hcomp : onePass 0 0 rr cc [] = some (.ok ([], false)) := rfl
      rw [hcomp] at h
      injection h with h
      injection h with h
      injection h with hA hB
      subst hA
      subst hB
      exact ⟨⟨rfl, fun row hrow => absurd hrow (List.not_mem_nil _)⟩,
        fun r c hne => absurd rfl hne, fun _ => rfl⟩

/-! ## Message discrimination (for C3, C8) -/

lemma rowMsg_ne_capMsg (r : Nat) (e : String) : rowMsg r e ≠ capMsg := by
  intro h
  have hd := congrArg (fun s => s.data.head?) h
  have h1 : (rowMsg r e).data.head? = some '行' := by
    show ((("行 " ++ toString (r + 1)) ++ ": ") ++ e).data.head? = some '行'
    simp [String.data_append, List.head?_append]
  have h2 : capMsg.data.head? = some '反' := rfl
  simp only at hd
  rw [h1, h2] at hd
  injection hd with hd
  cases hd

lemma colMsg_ne_capMsg (c : Nat) (e : String) : colMsg c e ≠ capMsg := by
  intro h
  have hd := congrArg (fun s => s.data.head?) h
  have h1 : (colMsg c e).data.head? = some '列' := by
    show ((("列 " ++ toString (c + 1)) ++ ": ") ++ e).data.head? = some '列'
    simp [String.data_append, List.head?_append]
  have h2 : capMsg.data.head? = some '反' := rfl
  simp only at hd
  rw [h1, h2] at hd
  injection hd with hd
  cases hd

lemma onePass_error_inv {rows cols : Nat} {rr cc : List (List Nat)}
    {g : List (List CellState)} {b : Bool} {j : Nat} {e : String}
    (h : onePass rows cols rr cc g = some (.error (b, j, e))) :
    e = contraMsg ∧ (b = true → j < rows) ∧ (b = false → j < cols) := by
  unfold onePass at h
  cases hp1 : phase cols rr 0 rows g false with
  | none => rw [hp1] at h; cases h
  | some exc1 =>
    rw [hp1] at h
    cases exc1 with
    | error pe =>
      obtain ⟨r, e'⟩ := pe
      dsimp only at h
      injection h with h
      injection h with h
      injection h with hb h
      injection h with hj he
      subst hb
      subst hj
      subst he
      obtain ⟨_, h2, h3, _⟩ := phase_error_inv rows 0 cols rr g false r e' hp1
      exact ⟨h3, fun _ => by omega, fun hf => absurd hf (by decide)⟩
    | ok p1 =>
      obtain ⟨g1, ch1⟩ := p1
      dsimp only at h
      cases hp2 : phase rows cc 0 cols (transpose g1) ch1 with
      | none => rw [hp2] at h; cases h
      | some exc2 =>
        rw [hp2] at h
        cases exc2 with
        | error pe =>
          obtain ⟨c, e'⟩ := pe
          dsimp only at h
          injection h with h
          injection h with h
          injection h with hb h
          injection h with hj he
          subst hb
          subst hj
          subst he
          obtain ⟨_, h2, h3, _⟩ :=
            phase_error_inv cols 0 rows cc (transpose g1) ch1 c e' hp2
          exact ⟨h3, fun hf => absurd hf (by decide), fun _ => by omega⟩
        | ok p2 =>
          obtain ⟨gt, ch2⟩ := p2
          dsimp only at h
          injection h with h
          injection h

/-! ## Loop lemmas (for C3, C5, C8, C9) -/
lemma solveStep_inv {rows cols : Nat} {rr cc : List (List Nat)}
    {original g : List (List CellState)}
    {k : List (List CellState) → Option SolveResult} {res : SolveResult}
    (h : solveStep rows cols rr cc original g k = some res) :
    (∃ b j e, onePass rows cols rr cc g = some (.error (b, j, e)) ∧
      res = ⟨original, if b then rowMsg j e else colMsg j e, true⟩) ∨
    (∃ g2, onePass rows cols rr cc g = some (.ok (g2, true)) ∧
      k g2 = some res) ∨
    (∃ g2, onePass rows cols rr cc g = some (.ok (g2, false)) ∧
      res = ⟨g2, if g2 = original then noChangeMsg else updatedMsg,
        false⟩) := by
  unfold solveStep at h
  cases hop : onePass rows cols rr cc g with
  | none => rw [hop] at h; cases h
  | some exc =>
    rw [hop] at h
    cases exc with
    | error t =>
      obtain ⟨b, j, e⟩ := t
      cases b
      · dsimp only at h
        injection h with h
        exact Or.inl ⟨false, j, e, rfl, h.symm⟩
      · dsimp only at h
        injection h with h
        exact Or.inl ⟨true, j, e, rfl, h.symm⟩
    | ok p =>
      obtain ⟨g2, ch⟩ := p
      dsimp only at h
      cases ch
      · rw [if_neg (by decide)] at h
        injection h with h
        exact Or.inr (Or.inr ⟨g2, rfl, h.symm⟩)
      · rw [if_pos rfl] at h
        exact Or.inr (Or.inl ⟨g2, rfl, h⟩)

lemma solveLoop_error_noncap {rows cols : Nat} {rr cc : List (List Nat)}
    {original : List (List CellState)} :
    ∀ (fuel : Nat) (g : List (List CellState)) (res : SolveResult),
    solveLoop rows cols rr cc original fuel g = some res →
    res.error = true → res.message ≠ capMsg →
    res.grid = original ∧
    ((∃ r, r < rows ∧ res.message = rowMsg r contraMsg) ∨
     (∃ c, c < cols ∧ res.message = colMsg c contraMsg)) := by
  have base : ∀ (g : List (List CellState)) (res : SolveResult),
      solveStep rows cols rr cc original g
        (fun g2 => some ⟨g2, capMsg, true⟩) = some res →
      res.error = true → res.message ≠ capMsg →
      res.grid = original ∧
      ((∃ r, r < rows ∧ res.message = rowMsg r contraMsg) ∨
       (∃ c, c < cols ∧ res.message = colMsg c contraMsg)) := by
    intro g res h he hm
    rcases solveStep_inv h with ⟨b, j, e, hop, hres⟩ | ⟨g2, hop, hk⟩ |
      ⟨g2, hop, hres⟩
    · subst hres
      obtain ⟨hc, hbr, hbc⟩ := onePass_error_inv hop
      cases b
      · exact ⟨rfl, Or.inr ⟨j, hbc rfl, show colMsg j e = _ by rw [hc]⟩⟩
      · exact ⟨rfl, Or.inl ⟨j, hbr rfl, show rowMsg j e = _ by rw [hc]⟩⟩
    · injection hk with hk
      subst hk
      exact absurd rfl hm
    · subst hres
      simp at he
  intro fuel
  induction fuel with
  | zero =>
    intro g res h he hm
    rw [solveLoop] at h
    exact base g res h he hm
  | succ f ih =>
    cases f with
    | zero =>
      intro g res h he hm
      rw [solveLoop] at h
      exact base g res h he hm
    | succ f' =>
      intro g res h he hm
      rw [solveLoop] at h
      rcases solveStep_inv h with ⟨b, j, e, hop, hres⟩ | ⟨g2, hop, hk⟩ |
        ⟨g2, hop, hres⟩
      · subst hres
        obtain ⟨hc, hbr, hbc⟩ := onePass_error_inv hop
        cases b
        · exact ⟨rfl, Or.inr ⟨j, hbc rfl, show colMsg j e = _ by rw [hc]⟩⟩
        · exact ⟨rfl, Or.inl ⟨j, hbr rfl, show rowMsg j e = _ by rw [hc]⟩⟩
      · exact ih g2 res hk he hm
      · subst hres
        simp at he

lemma solveLoop_cap_iterate {rows cols : Nat} {rr cc : List (List Nat)}
    {original : List (List CellState)} :
    ∀ (fuel : Nat) (g : List (List CellState)) (res : SolveResult),
    solveLoop rows cols rr cc original fuel g = some res →
    res.message = capMsg →
    res.error = true ∧
    iteratePass rows cols rr cc (max 1 fuel) g = some (.ok res.grid) := by
  have base : ∀ (g : List (List CellState)) (res : SolveResult),
      solveStep rows cols rr cc original g
        (fun g2 => some ⟨g2, capMsg, true⟩) = some res →
      res.message = capMsg →
      res.error = true ∧
      iteratePass rows cols rr cc 1 g = some (.ok res.grid) := by
    intro g res h hm
    rcases solveStep_inv h with ⟨b, j, e, hop, hres⟩ | ⟨g2, hop, hk⟩ |
      ⟨g2, hop, hres⟩
    · subst hres
      cases b
      · exact absurd hm (colMsg_ne_capMsg j e)
      · exact absurd hm (rowMsg_ne_capMsg j e)
    · injection hk with hk
      subst hk
      refine ⟨rfl, ?_⟩
      rw [iteratePass, hop]
      dsimp only
      rw [iteratePass]
    · subst hres
      dsimp only at hm
      by_cases hgo : g2 = original
      · rw [if_pos hgo] at hm
        exact absurd hm (by decide)
      · rw [if_neg hgo] at hm
        exact absurd hm (by decide)
  intro fuel
  induction fuel with
  | zero =>
    intro g res h hm
    rw [solveLoop] at h
    exact base g res h hm
  | succ f ih =>
    cases f with
    | zero =>
      intro g res h hm
      rw [solveLoop] at h
      exact base g res h hm
    | succ f' =>
      intro g res h hm
      rw [solveLoop] at h
      rcases solveStep_inv h with ⟨b, j, e, hop, hres⟩ | ⟨g2, hop, hk⟩ |
        ⟨g2, hop, hres⟩
      · subst hres
        cases b
        · exact absurd hm (colMsg_ne_capMsg j e)
        · exact absurd hm (rowMsg_ne_capMsg j e)
      · obtain ⟨he, hit⟩ := ih g2 res hk hm
        refine ⟨he, ?_⟩
        rw [max_eq_right (show 1 ≤ f' + 1 + 1 by omega)]
        rw [max_eq_right (show 1 ≤ f' + 1 by omega)] at hit
        show iteratePass rows cols rr cc (f' + 1 + 1) g = _
        rw [iteratePass, hop]
        dsimp only
        exact hit
      · subst hres
        dsimp only at hm
        by_cases hgo : g2 = original
        · rw [if_pos hgo] at hm
          exact absurd hm (by decide)
        · rw [if_neg hgo] at hm
          exact absurd hm (by decide)

lemma solveLoop_iterate_inv {rows cols : Nat} {rr cc : List (List Nat)}
    {original : List (List CellState)} :
    ∀ (fuel : Nat) (g : List (List CellState)) (res : SolveResult),
    solveLoop rows cols rr cc original fuel g = some res →
    res.grid = original ∨
    ∃ j, 1 ≤ j ∧ j ≤ max 1 fuel ∧
      iteratePass rows cols rr cc j g = some (.ok res.grid) := by
  have base : ∀ (g : List (List CellState)) (res : SolveResult),
      solveStep rows cols rr cc original g
        (fun g2 => some ⟨g2, capMsg, true⟩) = some res →
      res.grid = original ∨
      ∃ j, 1 ≤ j ∧ j ≤ 1 ∧
        iteratePass rows cols rr cc j g = some (.ok res.grid) := by
    intro g res h
    rcases solveStep_inv h with ⟨b, j, e, hop, hres⟩ | ⟨g2, hop, hk⟩ |
      ⟨g2, hop, hres⟩
    · subst hres
      exact Or.inl rfl
    · injection hk with hk
      subst hk
      refine Or.inr ⟨1, le_refl 1, le_refl 1, ?_⟩
      rw [iteratePass, hop]
      dsimp only
      rw [iteratePass]
    · subst hres
      refine Or.inr ⟨1, le_refl 1, le_refl 1, ?_⟩
      rw [iteratePass, hop]
      dsimp only
      rw [iteratePass]
  have lift : ∀ (fuel : Nat) (g : List (List CellState)) (res : SolveResult),
      (res.grid = original ∨
        ∃ j, 1 ≤ j ∧ j ≤ 1 ∧
          iteratePass rows cols rr cc j g = some (.ok res.grid)) →
      res.grid = original ∨
      ∃ j, 1 ≤ j ∧ j ≤ max 1 fuel ∧
        iteratePass rows cols rr cc j g = some (.ok res.grid) := by
    intro fuel g res hin
    rcases hin with h1 | ⟨j, hj1, hj2, hj3⟩
    · exact Or.inl h1
    · exact Or.inr ⟨j, hj1, by omega, hj3⟩
  intro fuel
  induction fuel with
  | zero =>
    intro g res h
    rw [solveLoop] at h
    exact lift 0 g res (base g res h)
  | succ f ih =>
    cases f with
    | zero =>
      intro g res h
      rw [solveLoop] at h
      exact lift 1 g res (base g res h)
    | succ f' =>
      intro g res h
      rw [solveLoop] at h
      rcases solveStep_inv h with ⟨b, j, e, hop, hres⟩ | ⟨g2, hop, hk⟩ |
        ⟨g2, hop, hres⟩
      · subst hres
        exact Or.inl rfl
      · rcases ih g2 res hk with horig | ⟨j, hj1, hj2, hjit⟩
        · exact Or.inl horig
        · rw [max_eq_right (show 1 ≤ f' + 1 by omega)] at hj2
          refine Or.inr ⟨j + 1, by omega, ?_, ?_⟩
          · rw [max_eq_right (show 1 ≤ f' + 1 + 1 by omega)]
            omega
          · rw [iteratePass, hop]
            dsimp only
            exact hjit
      · subst hres
        refine Or.inr ⟨1, le_refl 1, by simp, ?_⟩
        rw [iteratePass, hop]
        dsimp only
        rw [iteratePass]

lemma solveLoop_cells_inv {rows cols : Nat} {rr cc : List (List Nat)}
    {init : List (List CellState)} (hC : 0 < rows → 0 < cols) :
    ∀ (fuel : Nat) (g : List (List CellState)) (res : SolveResult),
    rectangular rows cols g →
    (∀ r c, cellAt init r c ≠ .Empty → cellAt g r c = cellAt init r c) →
    solveLoop rows cols rr cc init fuel g = some res →
    ∀ r c, cellAt init r c ≠ .Empty →
      cellAt res.grid r c = cellAt init r c := by
  have base : ∀ (g : List (List CellState)) (res : SolveResult),
      rectangular rows cols g →
      (∀ r c, cellAt init r c ≠ .Empty → cellAt g r c = cellAt init r c) →
      solveStep rows cols rr cc init g
        (fun g2 => some ⟨g2, capMsg, true⟩) = some res →
      ∀ r c, cellAt init r c ≠ .Empty →
        cellAt res.grid r c = cellAt init r c := by
    intro g res hg hinv h
    rcases solveStep_inv h with ⟨b, j, e, hop, hres⟩ | ⟨g2, hop, hk⟩ |
      ⟨g2, hop, hres⟩
    · subst hres
      exact fun r c _ => rfl
    · obtain ⟨hg2, hmono, _⟩ := onePass_ok_inv hg hC hop
      injection hk with hk
      subst hk
      intro r c hne
      rw [hmono r c (by rw [hinv r c hne]; exact hne), hinv r c hne]
    · obtain ⟨hg2, hmono, _⟩ := onePass_ok_inv hg hC hop
      subst hres
      intro r c hne
      rw [hmono r c (by rw [hinv r c hne]; exact hne), hinv r c hne]
  intro fuel
  induction fuel with
  | zero =>
    intro g res hg hinv h
    rw [solveLoop] at h
    exact base g res hg hinv h
  | succ f ih =>
    cases f with
    | zero =>
      intro g res hg hinv h
      rw [solveLoop] at h
      exact base g res hg hinv h
    | succ f' =>
      intro g res hg hinv h
      rw [solveLoop] at h
      rcases solveStep_inv h with ⟨b, j, e, hop, hres⟩ | ⟨g2, hop, hk⟩ |
        ⟨g2, hop, hres⟩
      · subst hres
        exact fun r c _ => rfl
      · obtain ⟨hg2, hmono, _⟩ := onePass_ok_inv hg hC hop
        have hinv2 : ∀ r c, cellAt init r c ≠ .Empty →
            cellAt g2 r c = cellAt init r c := by
          intro r c hne
          rw [hmono r c (by rw [hinv r c hne]; exact hne), hinv r c hne]
        exact ih g2 res hg2 hinv2 hk
      · obtain ⟨hg2, hmono, _⟩ := onePass_ok_inv hg hC hop
        subst hres
        intro r c hne
        rw [hmono r c (by rw [hinv r c hne]; exact hne), hinv r c hne]

lemma solveLoop_success_fix {rows cols : Nat} {rr cc : List (List Nat)}
    {original : List (List CellState)} (hC : 0 < rows → 0 < cols) :
    ∀ (fuel : Nat) (g : List (List CellState)) (res : SolveResult),
    rectangular rows cols g →
    solveLoop rows cols rr cc original fuel g = some res →
    res.error = false →
    onePass rows cols rr cc res.grid = some (.ok (res.grid, false)) := by
  have base : ∀ (g : List (List CellState)) (res : SolveResult),
      rectangular rows cols g →
      solveStep rows cols rr cc original g
        (fun g2 => some ⟨g2, capMsg, true⟩) = some res →
      res.error = false →
      onePass rows cols rr cc res.grid = some (.ok (res.grid, false)) := by
    intro g res hg h he
    rcases solveStep_inv h with ⟨b, j, e, hop, hres⟩ | ⟨g2, hop, hk⟩ |
      ⟨g2, hop, hres⟩
    · subst hres
      simp at he
    · injection hk with hk
      subst hk
      simp at he
    · obtain ⟨_, _, hfix⟩ := onePass_ok_inv hg hC hop
      have hg2 : g2 = g := hfix rfl
      subst hres
      show onePass rows cols rr cc g2 = some (.ok (g2, false))
      rw [hg2]
      rw [hg2] at hop
      exact hop
  intro fuel
  induction fuel with
  | zero =>
    intro g res hg h he
    rw [solveLoop] at h
    exact base g res hg h he
  | succ f ih =>
    cases f with
    | zero =>
      intro g res hg h he
      rw [solveLoop] at h
      exact base g res hg h he
    | succ f' =>
      intro g res hg h he
      rw [solveLoop] at h
      rcases solveStep_inv h with ⟨b, j, e, hop, hres⟩ | ⟨g2, hop, hk⟩ |
        ⟨g2, hop, hres⟩
      · subst hres
        simp at he
      · obtain ⟨hg2, _, _⟩ := onePass_ok_inv hg hC hop
        exact ih g2 res hg2 hk he
      · obtain ⟨_, _, hfix⟩ := onePass_ok_inv hg hC hop
        have hg2 : g2 = g := hfix rfl
        subst hres
        show onePass rows cols rr cc g2 = some (.ok (g2, false))
        rw [hg2]
        rw [hg2] at hop
        exact hop

lemma solveLoop_of_fix {rows cols : Nat} {rr cc : List (List Nat)}
    (g : List (List CellState)) (fuel : Nat)
    (h : onePass rows cols rr cc g = some (.ok (g, false))) :
    solveLoop rows cols rr cc g fuel g = some ⟨g, noChangeMsg, false⟩ := by
  rcases fuel with _ | (_ | f) <;> (rw [solveLoop, solveStep, h]; simp)

/-! ## Claim theorems C3, C5, C8, C9, C10 -/

/-- C3: when `solve_puzzle` returns an error result that is not the
iteration-cap message, the returned grid is the original input grid
unmodified and the message names the 1-indexed offending row or column
(`行 r+1`/`列 c+1` with the contradiction text); a phase error at line `r`
means every earlier line of that phase was processed without error and
line `r`'s `solve_line` signalled the contradiction (nothing after it was
processed); a row-phase contradiction determines the whole loop result
before any column work; and the concrete 1×1 example with
`initial_grid = [[Crossed]]` errors citing row 1 with the original grid. -/
theorem c3_contradiction_result :
    (∀ (rows cols : Nat) (rr cc : List (List Nat))
       (init : List (List CellState)) (res : SolveResult),
      solve_puzzle rows cols rr cc init = some res →
      res.error = true → res.message ≠ capMsg →
      res.grid = init ∧
      ((∃ r, r < rows ∧ res.message = rowMsg r contraMsg) ∨
       (∃ c, c < cols ∧ res.message = colMsg c contraMsg))) ∧
    (∀ (ls n : Nat) (rules : List (List Nat)) (g : List (List CellState))
       (ch : Bool) (r : Nat) (e : String),
      phase ls rules 0 n g ch = some (.error (r, e)) →
      r < n ∧ e = contraMsg ∧
      ∃ g' ch', phase ls rules 0 r g ch = some (.ok (g', ch')) ∧
        ∃ rule line, rules[r]? = some rule ∧ g'[r]? = some line ∧
          solve_line ls rule line = some (.error e)) ∧
    (∀ (rows cols : Nat) (rr cc : List (List Nat))
       (original g : List (List CellState)) (fuel : Nat) (r : Nat)
       (e : String),
      phase cols rr 0 rows g false = some (.error (r, e)) →
      solveLoop rows cols rr cc original fuel g =
        some ⟨original, rowMsg r e, true⟩) ∧
    solve_puzzle 1 1 [[1]] [[1]] [[CellState.Crossed]] =
      some ⟨[[CellState.Crossed]], rowMsg 0 contraMsg, true⟩ ∧
    rowMsg 0 contraMsg = "行 1: 入力に矛盾があります" := by
  refine ⟨?_, ?_, ?_, ?_, ?_⟩
  · intro rows cols rr cc init res h he hm
    exact solveLoop_error_noncap ((rows + cols) * 2) init res h he hm
  · intro ls n rules g ch r e h
    obtain ⟨h1, h2, h3, hrest⟩ := phase_error_inv n 0 ls rules g ch r e h
    exact ⟨by omega, h3, hrest⟩
  · intro rows cols rr cc original g fuel r e hp
    have hop : onePass rows cols rr cc g = some (.error (true, r, e)) := by
      unfold onePass
      rw [hp]
    rcases fuel with _ | (_ | f) <;> (rw [solveLoop, solveStep, hop])
  · decide
  · decide

/-- Witness for C3 at the 1×1 `[[Crossed]]` example. -/
theorem c3_contradiction_result_witness :
    (SolveResult.mk [[CellState.Crossed]] (rowMsg 0 contraMsg) true).grid =
      [[CellState.Crossed]] ∧
    ((∃ r, r < 1 ∧ (SolveResult.mk [[CellState.Crossed]]
        (rowMsg 0 contraMsg) true).message = rowMsg r contraMsg) ∨
     (∃ c, c < 1 ∧ (SolveResult.mk [[CellState.Crossed]]
        (rowMsg 0 contraMsg) true).message = colMsg c contraMsg)) :=
  c3_contradiction_result.1 1 1 [[1]] [[1]] [[CellState.Crossed]]
    (SolveResult.mk [[CellState.Crossed]] (rowMsg 0 contraMsg) true)
    (by decide) rfl (by decide)

/-- C5: monotonicity of propagation.  `solve_line` passes already
Filled/Crossed cells through unchanged; a successful `onePass` (one full
row+column iteration) preserves every non-Empty cell of a well-formed
grid; and end to end, every cell that is Filled or Crossed in the initial
grid has the same value in the grid of any `solve_puzzle` result. -/
theorem c5_monotonicity :
    (∀ (n : Nat) (rule : List Nat) (user res : List CellState),
      solve_line n rule user = some (.ok res) →
      ∀ j, user.getD j .Empty ≠ .Empty →
        res.getD j .Empty = user.getD j .Empty) ∧
    (∀ (rows cols : Nat) (rr cc : List (List Nat))
       (g g' : List (List CellState)) (ch : Bool),
      rectangular rows cols g → (0 < rows → 0 < cols) →
      onePass rows cols rr cc g = some (.ok (g', ch)) →
      ∀ r c, cellAt g r c ≠ .Empty → cellAt g' r c = cellAt g r c) ∧
    (∀ (rows cols : Nat) (rr cc : List (List Nat))
       (init : List (List CellState)) (res : SolveResult),
      rectangular rows cols init →
      solve_puzzle rows cols rr cc init = some res →
      ∀ r c, cellAt init r c ≠ .Empty →
        cellAt res.grid r c = cellAt init r c) := by
  refine ⟨?_, ?_, ?_⟩
  · intro n rule user res h
    exact (solve_line_ok_inv h).2
  · intro rows cols rr cc g g' ch hg hdeg h
    exact (onePass_ok_inv hg hdeg h).2.1
  · intro rows cols rr cc init res hg h r c hne
    by_cases hz : rows = 0 ∨ cols = 0
    · rcases hz with hz | hz
      · exact absurd (cellAt_oob hg (Or.inl (by omega))) hne
      · exact absurd (cellAt_oob hg (Or.inr (by omega))) hne
    · push_neg at hz
      exact solveLoop_cells_inv (fun _ => by omega) ((rows + cols) * 2) init
        res hg (fun _ _ _ => rfl) h r c hne

/-- Witness for C5: `solve_line 5 [3]` on a line with a Crossed cell, one
`onePass` on the solved 1×1 grid, and the end-to-end contradiction example
all preserve their non-Empty cells. -/
theorem c5_monotonicity_witness :
    ([CellState.Crossed, CellState.Empty, CellState.Filled, CellState.Filled,
        CellState.Empty] : List CellState).getD 0 .Empty =
      ([CellState.Crossed, CellState.Empty, CellState.Empty, CellState.Empty,
        CellState.Empty] : List CellState).getD 0 .Empty ∧
    cellAt [[CellState.Filled]] 0 0 = cellAt [[CellState.Filled]] 0 0 ∧
    cellAt (SolveResult.mk [[CellState.Crossed]] (rowMsg 0 contraMsg)
        true).grid 0 0 = cellAt [[CellState.Crossed]] 0 0 :=
  ⟨c5_monotonicity.1 5 [3]
      [CellState.Crossed, CellState.Empty, CellState.Empty, CellState.Empty,
        CellState.Empty]
      [CellState.Crossed, CellState.Empty, CellState.Filled, CellState.Filled,
        CellState.Empty]
      (by decide) 0 (by decide),
   c5_monotonicity.2.1 1 1 [[1]] [[1]] [[CellState.Filled]]
      [[CellState.Filled]] false (by unfold rectangular; decide) (by decide)
      (by decide) 0 0 (by decide),
   c5_monotonicity.2.2 1 1 [[1]] [[1]] [[CellState.Crossed]]
      (SolveResult.mk [[CellState.Crossed]] (rowMsg 0 contraMsg) true)
      (by unfold rectangular; decide) (by decide) 0 0 (by decide)⟩

/-- C8: the loop terminates; a cap-message result carries the error flag
and its grid is the state after exactly `(rows + cols) * 2` completed
iterations (the last completed iteration before the cap exit); and every
result grid is either the state after at most `(rows + cols) * 2`
iterations or the original grid. -/
theorem c8_iteration_cap {rows cols : Nat} {rr cc : List (List Nat)}
    {init : List (List CellState)} {res : SolveResult}
    (hg : rectangular rows cols init)
    (h : solve_puzzle rows cols rr cc init = some res) :
    (res.message = capMsg →
      res.error = true ∧
      iteratePass rows cols rr cc ((rows + cols) * 2) init =
        some (.ok res.grid)) ∧
    (∃ k, k ≤ (rows + cols) * 2 ∧
      (iteratePass rows cols rr cc k init = some (.ok res.grid) ∨
       res.grid = init)) := by
  by_cases hz : rows + cols = 0
  · have hr0 : rows = 0 := by omega
    have hc0 : cols = 0 := by omega
    subst hr0
    subst hc0
    have hinit : init = [] := eq_nil_of_rect_zero hg
    subst hinit
    have hcomp : solve_puzzle 0 0 rr cc [] =
        some ⟨[], noChangeMsg, false⟩ := rfl
    rw [hcomp] at h
    injection h with h
    subst h
    exact ⟨fun hm => absurd hm (by decide), ⟨0, by omega, Or.inr rfl⟩⟩
  · constructor
    · intro hm
      obtain ⟨he, hit⟩ := solveLoop_cap_iterate ((rows + cols) * 2) init res
        h hm
      refine ⟨he, ?_⟩
      rwa [max_eq_right (show 1 ≤ (rows + cols) * 2 by omega)] at hit
    · rcases solveLoop_iterate_inv ((rows + cols) * 2) init res h with horig |
        ⟨j, hj1, hj2, hjit⟩
      · exact ⟨0, by omega, Or.inr horig⟩
      · rw [max_eq_right (show 1 ≤ (rows + cols) * 2 by omega)] at hj2
        exact ⟨j, hj2, Or.inl hjit⟩

/-- Witness for C8 at the solvable 1×1 puzzle. -/
theorem c8_iteration_cap_witness :
    ((SolveResult.mk [[CellState.Filled]] updatedMsg false).message =
        capMsg →
      (SolveResult.mk [[CellState.Filled]] updatedMsg false).error = true ∧
      iteratePass 1 1 [[1]] [[1]] ((1 + 1) * 2) [[CellState.Empty]] =
        some (.ok (SolveResult.mk [[CellState.Filled]] updatedMsg
          false).grid)) ∧
    (∃ k, k ≤ (1 + 1) * 2 ∧
      (iteratePass 1 1 [[1]] [[1]] k [[CellState.Empty]] =
        some (.ok (SolveResult.mk [[CellState.Filled]] updatedMsg
          false).grid) ∨
       (SolveResult.mk [[CellState.Filled]] updatedMsg false).grid =
         [[CellState.Empty]])) :=
  @c8_iteration_cap 1 1 [[1]] [[1]] [[CellState.Empty]]
    (SolveResult.mk [[CellState.Filled]] updatedMsg false)
    (by unfold rectangular; decide) (by decide)

/-- C9 counterexample: a 1×0 puzzle succeeds but its returned grid `[]`
has lost the row (the transpose round-trip of a 1×0 grid is empty), so
re-invoking `solve_puzzle` with the returned grid faults (the row phase
indexes a missing row) instead of reproducing the grid with the
no-change message. -/
theorem c9_idempotence_counterexample :
    solve_puzzle 1 0 [[]] [] [[]] = some ⟨[], updatedMsg, false⟩ ∧
    solve_puzzle 1 0 [[]] [] [] = none := by
  decide

/-- C9 (amended): for a well-formed `rows × cols` initial grid with
`cols` positive whenever `rows` is, any success result is a fixed point:
re-invoking `solve_puzzle` on the returned grid returns the same grid
with the no-change message and no error. -/
theorem c9_idempotence_amended {rows cols : Nat} {rr cc : List (List Nat)}
    {init : List (List CellState)} {res : SolveResult}
    (hg : rectangular rows cols init) (hdeg : 0 < rows → 0 < cols)
    (h : solve_puzzle rows cols rr cc init = some res)
    (he : res.error = false) :
    solve_puzzle rows cols rr cc res.grid =
      some ⟨res.grid, noChangeMsg, false⟩ := by
  have hfix := solveLoop_success_fix hdeg ((rows + cols) * 2) init res hg h he
  show solveLoop rows cols rr cc res.grid ((rows + cols) * 2) res.grid =
    some ⟨res.grid, noChangeMsg, false⟩
  exact solveLoop_of_fix res.grid ((rows + cols) * 2) hfix

/-- Witness for C9 (amended): re-solving the solved 1×1 grid. -/
theorem c9_idempotence_amended_witness :
    solve_puzzle 1 1 [[1]] [[1]]
        (SolveResult.mk [[CellState.Filled]] updatedMsg false).grid =
      some ⟨(SolveResult.mk [[CellState.Filled]] updatedMsg false).grid,
        noChangeMsg, false⟩ :=
  @c9_idempotence_amended 1 1 [[1]] [[1]] [[CellState.Empty]]
    (SolveResult.mk [[CellState.Filled]] updatedMsg false)
    (by unfold rectangular; decide) (by decide) (by decide) (by decide)

/-- C10: the 0×0 puzzle returns success with the empty grid and the
no-change message even though the iteration cap `(0 + 0) * 2` is zero,
because the fixed-point check precedes the cap check. -/
theorem c10_degenerate_empty :
    solve_puzzle 0 0 [] [] [] = some ⟨[], noChangeMsg, false⟩ ∧
    (0 + 0) * 2 = 0 ∧ noChangeMsg ≠ capMsg := by
  decide

end NonogramSolver
